import Mathlib

/-!
Verification development for the ERENO optimizer tooling
(`tools/optuna_opt.py`, `tools/optuna_opt_aggressive.py`, `tools/optimizer_db.py`).

The Python code is shallowly embedded: JSON documents become an inductive
`Json` type (Python dicts are insertion-ordered association lists, mirroring
`dict` semantics: assignment to an existing key updates in place, a new key is
appended); Python numbers are modelled exactly, `int` as `Int` and `float` as
`ℚ` (IEEE rounding is not modelled); code that can raise a Python exception
returns `Except String α`, the string naming the exception.
-/

/-- A Python `float`, represented as an exact (not necessarily reduced)
fraction `num / den`.  All floats in this code base arise from decimal
literals, so they are exact decimals; IEEE rounding is not modelled.  The
representation is kept unreduced so that all operations are free of `Nat.gcd`
and evaluate inside the kernel; `toRat` gives the mathematical value. -/
structure Flt where
  num : Int
  den : Nat
  deriving DecidableEq, Repr

namespace Flt

/-- The rational value of a float. -/
def toRat (x : Flt) : ℚ := (x.num : ℚ) / (x.den : ℚ)

/-- Python `a < b` on floats, by cross-multiplication (exact, since the
values are exact rationals). -/
def blt (a b : Flt) : Bool := a.num * (b.den : Int) < b.num * (a.den : Int)

/-- A float with a positive denominator (every float built by this
development has one). -/
def WF (a : Flt) : Prop := 0 < a.den

end Flt

/-- A JSON / Python value, as produced by `json.load`.  `int` and `float` are
kept apart because the Python code branches on `isinstance(..., int)` vs
`float`; `bool` is separate because the code tests `isinstance(node, bool)`
first. -/
inductive Json where
  | null : Json
  | bool (b : Bool) : Json
  | int (n : Int) : Json
  | num (x : Flt) : Json
  | str (s : String) : Json
  | arr (xs : List Json) : Json
  | obj (xs : List (String × Json)) : Json

/-- `d[k]` lookup / `k in d`: first (and, for a genuine Python dict, only)
binding of `k`. -/
def dictGet {α : Type} : List (String × α) → String → Option α
  | [], _ => none
  | (k', v') :: rest, k => if k' = k then some v' else dictGet rest k

/-- `d[k] = v`: update in place if the key exists, append otherwise —
Python dict assignment, which preserves insertion order. -/
def dictSet {α : Type} : List (String × α) → String → α → List (String × α)
  | [], k, v => [(k, v)]
  | (k', v') :: rest, k, v =>
    if k' = k then (k, v) :: rest else (k', v') :: dictSet rest k v

/-- `d.get(k, default)`. -/
def dictGetD {α : Type} (xs : List (String × α)) (k : String) (d : α) : α :=
  (dictGet xs k).getD d

namespace Json

def isObj : Json → Bool
  | .obj _ => true
  | _ => false

end Json

namespace OptunaOpt

open Json

/-- `merge(d, u)` from `write_config` in `tools/optuna_opt.py` (the function in
`tools/optuna_opt_aggressive.py` is textually identical).  The Python function
mutates `d` and returns it; here the returned value is the result.  Faithful
failure modes: iterating `u.items()` on a non-dict `u` raises
`AttributeError`; when `u` is a non-empty dict but `d` is not a dict, the
first iteration raises — `d.get(k, {})` on a non-dict raises `AttributeError`
when the patch value is a dict, and `d[k] = v` raises `TypeError` otherwise;
when `u` is an empty dict the loop body never runs and `d` is returned
unchanged, whatever it is. -/
def mergeList : Json → List (String × Json) → Except String Json
  | d, [] => .ok d
  | d, (k, v) :: rest =>
    match v with
    | .obj ves =>
      match d with
      | .obj dl =>
        match mergeList (dictGetD dl k (.obj [])) ves with
        | .ok m => mergeList (.obj (dictSet dl k m)) rest
        | .error e => .error e
      | _ => .error "AttributeError"
    | _ =>
      match d with
      | .obj dl => mergeList (.obj (dictSet dl k v)) rest
      | _ => .error "TypeError"
termination_by _ l => sizeOf l
decreasing_by all_goals simp_wf <;> omega

/-- `merge(d, u)` itself: `for k, v in u.items(): ...`. -/
def merge (d u : Json) : Except String Json :=
  match u with
  | .obj ues => mergeList d ues
  | _ => .error "AttributeError"

/-- The inner loop plus final assignment of `set_in_patch`
(`tools/optuna_opt.py` lines 99-103): walk `ks`, replacing a missing or
non-dict intermediate with a fresh `{}` (`if k not in node or not
isinstance(node[k], dict): node[k] = {}`), then `node[last] = v`.  A non-dict
`node` raises `TypeError` (`k in node` / item assignment on a non-dict). -/
def setWalk : Json → List String → String → Json → Except String Json
  | .obj nl, [], last, v => .ok (.obj (dictSet nl last v))
  | .obj nl, k :: ks, last, v =>
    let child : Json :=
      match dictGet nl k with
      | some (.obj cl) => .obj cl
      | _ => .obj []
    match setWalk child ks last v with
    | .ok c => .ok (.obj (dictSet nl k c))
    | .error e => .error e
  | _, _, _, _ => .error "TypeError"

/-- `set_in_patch(p, path, value)` from `objective` in `tools/optuna_opt.py`
(lines 90-103).  `p.setdefault('attacksParams', {})` runs before the empty-path
check; the first path segment is the attack key (`if attack not in cur:
cur[attack] = {}`), the middle segments go through `setWalk`, and
`node[path[-1]] = value` sets the leaf.  For a one-segment path, `path[-1]`
is the attack key itself, so the value lands at `cur[attack][attack]`. -/
def set_in_patch (p : Json) (path : List String) (v : Json) : Except String Json :=
  match p with
  | .obj pl =>
    let cur : Json := dictGetD pl "attacksParams" (.obj [])
    let pl' : List (String × Json) :=
      match dictGet pl "attacksParams" with
      | some _ => pl
      | none => dictSet pl "attacksParams" (.obj [])
    match path with
    | [] => .ok (.obj pl')
    | attack :: rest =>
      match cur with
      | .obj cl =>
        let node : Json := dictGetD cl attack (.obj [])
        let last : String := rest.getLast?.getD attack
        match setWalk node rest.dropLast last v with
        | .ok n => .ok (.obj (dictSet pl' "attacksParams" (.obj (dictSet cl attack n))))
        | .error e => .error e
      | _ => .error "TypeError"
  | _ => .error "AttributeError"

end OptunaOpt

namespace OptunaOptAggressive

open Json

/-- The per-parameter materialization loop of `main` in
`tools/optuna_opt_aggressive.py` (lines 388-394): `node = best_attack_config;
for k in path[:-1]: if k not in node: node[k] = {}; node = node[k];
node[path[-1]] = value`.  A missing intermediate key is created as `{}`; an
existing non-dict intermediate is entered as-is and the next dict operation on
it raises `TypeError`; an empty path raises `IndexError` (`path[-1]`). -/
def setPath : Json → List String → Json → Except String Json
  | .obj dl, [k], v => .ok (.obj (dictSet dl k v))
  | .obj dl, k :: ks, v =>
    match setPath (dictGetD dl k (.obj [])) ks v with
    | .ok c => .ok (.obj (dictSet dl k c))
    | .error e => .error e
  | _, [], _ => .error "IndexError"
  | _, _ :: _, _ => .error "TypeError"

end OptunaOptAggressive

namespace Json

/-- Observer: navigate a nested document along a key path (`node[k]`
repeatedly).  This is how a re-walk of a materialized config reads the value
sitting at a tunable path. -/
def readPath : Json → List String → Option Json
  | j, [] => some j
  | .obj es, k :: ks =>
    match dictGet es k with
    | some v => readPath v ks
    | none => none
  | _, _ :: _ => none

end Json

namespace PyStr

/-- `'_'.join(parts)`. -/
def joinU (ps : List String) : String := String.intercalate "_" ps

/-- One scan step of CPython `str.replace` with a non-empty pattern
`p0 :: ps`: at each position, if the pattern is a prefix, emit the
replacement and skip the pattern; otherwise keep the character.  Matches are
leftmost and non-overlapping, exactly as in Python.  The fuel only bounds
recursion depth; every step consumes at least one character, so any fuel at
least the input length never runs out. -/
def replaceAux (p0 : Char) (ps rep : List Char) : Nat → List Char → List Char
  | _, [] => []
  | 0, s => s
  | fuel + 1, c :: cs =>
    if (p0 :: ps).isPrefixOf (c :: cs) then
      rep ++ replaceAux p0 ps rep fuel (cs.drop ps.length)
    else
      c :: replaceAux p0 ps rep fuel cs

/-- `s.replace(pat, rep)`.  The Python code only ever calls it with the
pattern `'_min'`, so the empty-pattern behaviour is irrelevant (modelled as
the identity). -/
def pyReplace (s pat rep : String) : String :=
  match pat.data with
  | [] => s
  | p0 :: ps => ⟨replaceAux p0 ps rep.data s.data.length s.data⟩

/-- `s.find(c)`: index of the first occurrence, if any (`-1` in Python). -/
def pyFind (cs : List Char) (c : Char) : Option Nat :=
  match cs with
  | [] => none
  | c' :: rest => if c' = c then some 0 else (pyFind rest c).map (· + 1)

/-- The whitespace stripped by Python `str.strip()` (ASCII portion). -/
def isPyWs (c : Char) : Bool :=
  c = ' ' || c = '\t' || c = '\n' || c = '\r' || c = '\x0b' || c = '\x0c'

/-- `s.strip()`. -/
def stripList (cs : List Char) : List Char :=
  ((cs.dropWhile isPyWs).reverse.dropWhile isPyWs).reverse

/-- `s.split(',')`: split at every comma; the empty string yields `[""]`. -/
def splitComma : List Char → List (List Char)
  | [] => [[]]
  | c :: cs =>
    if c = ',' then [] :: splitComma cs
    else
      match splitComma cs with
      | s :: ss => (c :: s) :: ss
      | [] => [[c]]

/-- Lexicographic comparison of char lists by code point — Python `str`
ordering, as used by `sorted`. -/
def lexLe : List Char → List Char → Bool
  | [], _ => true
  | _ :: _, [] => false
  | a :: as, b :: bs => if a < b then true else if b < a then false else lexLe as bs

/-- `a <= b` on Python strings. -/
def strLe (a b : String) : Bool := lexLe a.data b.data

def isDigit (c : Char) : Bool := '0' ≤ c && c ≤ '9'

def digitVal (c : Char) : Nat := c.toNat - '0'.toNat

/-- Consume a run of decimal digits, returning the accumulated value, the
number of digits consumed and the rest. -/
def digitsAux (acc len : Nat) : List Char → Nat × Nat × List Char
  | [] => (acc, len, [])
  | c :: cs =>
    if isDigit c then digitsAux (acc * 10 + digitVal c) (len + 1) cs
    else (acc, len, c :: cs)

/-- Build the exact value `sgn * (mantissa / 10^flen) * 10^e` as an
unreduced fraction. -/
def mkDecimal (neg : Bool) (mantissa : Nat) (flen : Nat) (e : Int) : Flt :=
  let m : Int := if neg then -(mantissa : Int) else (mantissa : Int)
  if 0 ≤ e then ⟨m * (10 : Int) ^ e.toNat, 10 ^ flen⟩
  else ⟨m, 10 ^ flen * 10 ^ (-e).toNat⟩

/-- Split a leading `+`/`-` sign off a character list, as an integer sign
factor. -/
def signSplit (cs : List Char) : Int × List Char :=
  match cs with
  | [] => (1, [])
  | c :: r =>
    if c = '+' then (1, r)
    else if c = '-' then (-1, r)
    else (1, c :: r)

/-- The exponent suffix `[(e|E)[+-]digits]` followed by end of string: `some
e` when well-formed or absent, `none` when a junk tail remains (which makes
`float()` raise). -/
def floatExpTail : List Char → Option Int
  | [] => some 0
  | c :: r =>
    if c = 'e' ∨ c = 'E' then
      let (esgn, r1) := signSplit r
      match digitsAux 0 0 r1 with
      | (_, 0, _) => none
      | (ev, _, r') => if r' = [] then some (esgn * ev) else none
    else none

/-- Python `float(s)` on the decimal forms `[ws][+-]digits[.digits][(e|E)[+-]digits][ws]`
(at least one digit overall, the whole string consumed).  `inf`/`nan`
spellings and digit-group underscores are not modelled (they do not occur in
this repository's data). -/
def pyFloat (s : String) : Option Flt :=
  let cs := stripList s.data
  let (neg, cs1) : Bool × List Char :=
    match cs with
    | [] => (false, [])
    | c :: r =>
      if c = '+' then (false, r)
      else if c = '-' then (true, r)
      else (false, c :: r)
  match digitsAux 0 0 cs1 with
  | (ipart, ilen, cs2) =>
    let (fpart, flen, cs3) : Nat × Nat × List Char :=
      match cs2 with
      | '.' :: r => digitsAux 0 0 r
      | _ => (0, 0, cs2)
    if ilen + flen = 0 then none
    else
      match floatExpTail cs3 with
      | none => none
      | some e => some (mkDecimal neg (ipart * 10 ^ flen + fpart) flen e)

/-- Python `int(s)`: `[ws][+-]digits[ws]`, whole string consumed
(digit-group underscores not modelled). -/
def pyInt (s : String) : Option Int :=
  let cs := stripList s.data
  let (sgn, cs1) := signSplit cs
  match digitsAux 0 0 cs1 with
  | (_, 0, _) => none
  | (v, _, cs2) => if cs2 = [] then some (sgn * v) else none

end PyStr

namespace PyJson

open Json PyStr

/-- The whitespace skipped by the `json` module between tokens. -/
def isJsonWs (c : Char) : Bool := c = ' ' || c = '\t' || c = '\n' || c = '\r'

def skipWs (cs : List Char) : List Char := cs.dropWhile isJsonWs

def hexVal (c : Char) : Option Nat :=
  let n := c.toNat
  if 48 ≤ n ∧ n ≤ 57 then some (n - 48)
  else if 97 ≤ n ∧ n ≤ 102 then some (n - 87)
  else if 65 ≤ n ∧ n ≤ 70 then some (n - 55)
  else none

/-- One decoded single-character escape (`\"`, `\\`, `\/`, `\b`, `\f`,
`\n`, `\r`, `\t`). -/
def escChar (e : Char) : Option Char :=
  if e = '"' ∨ e = '\\' ∨ e = '/' then some e
  else if e = 'b' then some '\x08'
  else if e = 'f' then some '\x0c'
  else if e = 'n' then some '\n'
  else if e = 'r' then some '\x0d'
  else if e = 't' then some '\t'
  else none

/-- Prepend a decoded character to a string-body parse result. -/
def withHead (c : Char) (o : Option (List Char × List Char)) :
    Option (List Char × List Char) :=
  o.map fun pr => (c :: pr.1, pr.2)

/-- JSON string body after the opening quote, in the `json` module's strict
mode: raw control characters are rejected, the standard escapes are decoded.
`\uXXXX` is decoded code-unit-wise (surrogate-pair recombination is not
modelled; it does not occur in this repository's data). -/
def strBody : List Char → Option (List Char × List Char)
  | [] => none
  | c :: cs =>
    if c = '"' then some ([], cs)
    else if c = '\\' then
      match cs with
      | 'u' :: h1 :: h2 :: h3 :: h4 :: r =>
        match hexVal h1, hexVal h2, hexVal h3, hexVal h4 with
        | some a, some b, some g, some d =>
          withHead (Char.ofNat (a * 4096 + b * 256 + g * 16 + d)) (strBody r)
        | _, _, _, _ => none
      | e :: r =>
        match escChar e with
        | some ch => withHead ch (strBody r)
        | none => none
      | [] => none
    else if c.toNat < 32 then none
    else withHead c (strBody cs)

/-- A JSON number, per the `json` module's regex
`-?(0|[1-9]\d*)(\.\d+)?([eE][+-]?\d+)?` — longest match, leading zeros stop
the integer part, a fraction or exponent needs at least one digit or it is
not consumed.  Integers stay `Json.int`, anything with a fraction or exponent
becomes a `Json.num` (exact fraction; IEEE rounding not modelled). -/
def parseNumber (cs : List Char) : Option (Json × List Char) :=
  let (neg, cs1) : Bool × List Char :=
    match cs with
    | '-' :: r => (true, r)
    | _ => (false, cs)
  match cs1 with
  | [] => none
  | c :: _ =>
    if ¬ isDigit c then none
    else
      let (ipart, cs2) : Nat × List Char :=
        if c = '0' then (0, cs1.tail)
        else
          let (v, _, r) := digitsAux 0 0 cs1
          (v, r)
      let (fpart, flen, cs3) : Nat × Nat × List Char :=
        match cs2 with
        | '.' :: r =>
          match digitsAux 0 0 r with
          | (_, 0, _) => (0, 0, cs2)
          | (fv, fl, r') => (fv, fl, r')
        | _ => (0, 0, cs2)
      let (epart, hasExp, cs4) : Int × Bool × List Char :=
        match cs3 with
        | c2 :: r =>
          if c2 = 'e' ∨ c2 = 'E' then
            let (esgn, r1) := PyStr.signSplit r
            match digitsAux 0 0 r1 with
            | (_, 0, _) => (0, false, cs3)
            | (ev, _, r') => (esgn * ev, true, r')
          else (0, false, cs3)
        | [] => (0, false, cs3)
      if flen = 0 ∧ hasExp = false then
        some (.int (if neg then -(ipart : Int) else ipart), cs3)
      else
        some (.num (PyStr.mkDecimal neg (ipart * 10 ^ flen + fpart) flen epart), cs4)

/-- Consume the literal keyword `w` at the head of `cs`, returning the
remainder on success. -/
def matchLit (w : String) (cs : List Char) : Option (List Char) :=
  if w.data.isPrefixOf cs then some (cs.drop w.data.length) else none

mutual

/-- One JSON value, fuelled (the fuel only bounds recursion depth; it is
chosen large enough at the top level).  This is `json.loads`' scanner:
leading whitespace is skipped, then `null`/`true`/`false`, a string, an
object, an array or a number is consumed. -/
def parseValue : Nat → List Char → Option (Json × List Char)
  | 0, _ => none
  | fuel + 1, cs =>
    let cs1 := skipWs cs
    if let some r := matchLit "null" cs1 then some (.null, r)
    else if let some r := matchLit "true" cs1 then some (.bool true, r)
    else if let some r := matchLit "false" cs1 then some (.bool false, r)
    else
      match cs1 with
      | '"' :: r => (strBody r).map (fun (s, r') => (.str ⟨s⟩, r'))
      | '{' :: r =>
        match skipWs r with
        | '}' :: r2 => some (.obj [], r2)
        | r1 => parseMembers fuel r1 []
      | '[' :: r =>
        match skipWs r with
        | ']' :: r2 => some (.arr [], r2)
        | r1 => parseElems fuel r1 []
      | c :: r =>
        if c = '-' ∨ isDigit c then parseNumber (c :: r) else none
      | [] => none

/-- Object members after the opening brace (non-empty case): a quoted key,
`:`, a value, then `,` and more members or `}`.  Duplicate keys behave like
Python `dict(pairs)`: the later value wins, the first position is kept. -/
def parseMembers : Nat → List Char → List (String × Json) → Option (Json × List Char)
  | 0, _, _ => none
  | fuel + 1, cs, acc =>
    match cs with
    | '"' :: r =>
      match strBody r with
      | none => none
      | some (k, r1) =>
        match skipWs r1 with
        | ':' :: r2 =>
          match parseValue fuel r2 with
          | none => none
          | some (v, r3) =>
            let acc' := dictSet acc ⟨k⟩ v
            match skipWs r3 with
            | ',' :: r4 => parseMembers fuel (skipWs r4) acc'
            | '}' :: r4 => some (.obj acc', r4)
            | _ => none
        | _ => none
    | _ => none

/-- Array elements after the opening bracket (non-empty case). -/
def parseElems : Nat → List Char → List Json → Option (Json × List Char)
  | 0, _, _ => none
  | fuel + 1, cs, acc =>
    match parseValue fuel cs with
    | none => none
    | some (v, r) =>
      match skipWs r with
      | ',' :: r1 => parseElems fuel r1 (acc ++ [v])
      | ']' :: r1 => some (.arr (acc ++ [v]), r1)
      | _ => none

end

/-- `json.loads(s)`: parse one value, then require only whitespace to follow
(`Extra data` otherwise).  `None` is the model of a raised
`json.JSONDecodeError`. -/
def jsonParse (cs : List Char) : Option Json :=
  match parseValue (cs.length + 2) cs with
  | some (v, rest) => if skipWs rest = [] then some v else none
  | none => none

end PyJson

namespace OptunaOpt

/-- The trailing-trim retry loop of `run_experiment` in `tools/optuna_opt.py`
(lines 69-74): `for i in range(len(jtxt), 0, -1): try: return
json.loads(jtxt[:i]) ...` — the first (longest) prefix that parses wins;
`none` means the loop fell through and the original error is re-raised. -/
def trimLoop (cs : List Char) : Nat → Option Json
  | 0 => none
  | i + 1 =>
    match PyJson.jsonParse (cs.take (i + 1)) with
    | some r => some r
    | none => trimLoop cs i

/-- Parse-then-trim applied to the already-stripped candidate `jtxt`
(the body of the `try`/`except` around `json.loads(jtxt)`). -/
def parsePipeline (jtxt : List Char) : Except String Json :=
  match PyJson.jsonParse jtxt with
  | some r => .ok r
  | none =>
    match trimLoop jtxt jtxt.length with
    | some r => .ok r
    | none => .error "json.JSONDecodeError"

/-- The output-parsing part of `run_experiment` (`tools/optuna_opt.py` lines
60-76): find the first `'{'` (`RuntimeError` if absent), strip the tail from
there, try `json.loads`, and on failure retry on progressively shorter
prefixes, re-raising `json.JSONDecodeError` when every prefix fails. -/
def runExperimentParse (out : List Char) : Except String Json :=
  match PyStr.pyFind out '{' with
  | none => .error "RuntimeError: No JSON output from runner"
  | some jstart => parsePipeline (PyStr.stripList (out.drop jstart))

/-- One invocation of the external runner via `subprocess.run` (no `timeout=`
argument is passed, and `check` is left `False`): either the launch itself
raises (`FileNotFoundError` for a missing executable) or the process
completes with an exit code and captured `stdout+stderr` text. -/
inductive RunnerOutcome where
  | launchFailure : RunnerOutcome
  | completed (exitCode : Int) (stdout : List Char) : RunnerOutcome

/-- `run_experiment` (`tools/optuna_opt.py` lines 51-76).  Note that
`proc.returncode` is never read: the exit code is ignored and only the
captured output matters. -/
def run_experiment : RunnerOutcome → Except String Json
  | .launchFailure => .error "FileNotFoundError"
  | .completed _exitCode out => runExperimentParse out

/-- `float(x)` applied to a JSON value, as in `float(res.get('metric_f1',
1.0))`:  Python bools are ints, strings go through `float(str)`, containers
raise `TypeError`. -/
def pyFloatOfJson : Json → Except String Flt
  | .int n => .ok ⟨n, 1⟩
  | .num x => .ok x
  | .bool b => .ok ⟨if b then 1 else 0, 1⟩
  | .str s =>
    match PyStr.pyFloat s with
    | some x => .ok x
    | none => .error "ValueError"
  | _ => .error "TypeError"

/-- The evaluation-and-penalty part of `objective` (`tools/optuna_opt.py`
lines 171-188): `try: res = run_experiment(...)` with `except Exception:
return 2.0`, then `metric = float(res.get('metric_f1', 1.0))` (this
extraction sits outside the `try`). -/
def objective (o : RunnerOutcome) : Except String Flt :=
  match run_experiment o with
  | .error _ => .ok ⟨2, 1⟩
  | .ok res =>
    match res with
    | .obj es => pyFloatOfJson (dictGetD es "metric_f1" (.num ⟨1, 1⟩))
    | _ => .error "AttributeError"

/-- The file-system state seen by `write_config` (`tools/optuna_opt.py`
lines 34-48): the baseline config file and the files written so far.  Each
call re-reads the baseline file (`json.load` produces a fresh value tree, so
the in-place mutation performed by `merge` acts on that fresh copy) and
writes the merged result to `out_path`, which in every call site is a file
other than the baseline (`tmpdir/cfg.json` or `target/opt_best_config.json`),
so the write appends to `written` and leaves `baseline` untouched. -/
structure FsState where
  baseline : Json
  written : List Json

/-- `write_config(base_cfg_path, out_path, patch)`. -/
def write_config (st : FsState) (patch : Json) : Except String FsState :=
  match merge st.baseline patch with
  | .ok merged => .ok ⟨st.baseline, st.written ++ [merged]⟩
  | .error e => .error e

/-- `N` successive `write_config` calls against the same baseline file, as
the trial loop performs. -/
def runPatches (st : FsState) : List Json → Except String FsState
  | [] => .ok st
  | p :: ps =>
    match write_config st p with
    | .ok st' => runPatches st' ps
    | .error e => .error e

/-- `1e-6`, the widening used by the float branches of `traverse`. -/
def eps6 : ℚ := 1 / 1000000

/-- Integer min/max pair, `traverse` in `tools/optuna_opt.py` lines 115-120:
`low = max(0, int(base_min)); high = max(low + 1, int(base_max))`, and
`v_min = trial.suggest_int(name, low, high - 1)`. -/
def intPairMinRange (bm bx : Int) : Int × Int :=
  let low := max 0 bm
  let high := max (low + 1) bx
  (low, high - 1)

/-- `v_max = trial.suggest_int(name2, v_min + 1, max(v_min + 1, int(base_max)))`. -/
def intPairMaxRange (bx vmin : Int) : Int × Int :=
  (vmin + 1, max (vmin + 1) bx)

/-- Float min/max pair, `traverse` lines 121-126:
`v_min = trial.suggest_float(name, low, max(low + 1e-6, high))`. -/
def floatPairMinRange (bm bx : ℚ) : ℚ × ℚ :=
  (bm, max (bm + eps6) bx)

/-- `v_max = trial.suggest_float(name2, max(v_min + 1e-6, low), high)`. -/
def floatPairMaxRange (bm bx vmin : ℚ) : ℚ × ℚ :=
  (max (vmin + eps6) bm, bx)

end OptunaOpt

/-- A numeric Python leaf (`isinstance(node, (int, float))` after the `bool`
branch), carrying its exact value. -/
inductive PyNum where
  | int (n : Int) : PyNum
  | float (q : ℚ) : PyNum

/-- `float(node)` on a numeric leaf. -/
def PyNum.val : PyNum → ℚ
  | .int n => n
  | .float q => q

/-- The bound handed to `trial.suggest_int` / `trial.suggest_float` for a
plain numeric leaf. -/
inductive SuggestBound where
  | ints (lo hi : Int) : SuggestBound
  | floats (lo hi : ℚ) : SuggestBound
  deriving DecidableEq

/-- Python `int(q)`: truncation toward zero. -/
def pyTrunc (q : ℚ) : Int := if 0 ≤ q then ⌊q⌋ else ⌈q⌉

namespace OptunaOpt

/-- The numeric-leaf branch of `traverse` (`tools/optuna_opt.py` lines
141-157): leaves with `0.0 <= float(node) <= 1.0` are treated as
probabilities and searched over `[0, 1]`; otherwise integers get
`[max(0, node // 2), max(low + 1, node * 3 + 1)]` and floats
`[max(0.0, node / 2), max(low + 1e-6, node * 3)]`.  (Python `//` floors;
float arithmetic is modelled exactly.) -/
def leafBound (v : PyNum) : SuggestBound :=
  if 0 ≤ v.val ∧ v.val ≤ 1 then .floats 0 1
  else
    match v with
    | .int n =>
      let low := max 0 (Int.fdiv n 2)
      .ints low (max (low + 1) (3 * n + 1))
    | .float q =>
      let low := max 0 (q / 2)
      .floats low (max (low + eps6) (3 * q))

end OptunaOpt

namespace OptunaOptAggressive

/-- `jtxt.replace('\\', '\\\\')` — the backslash sanitization applied before
parsing in the aggressive variant (`tools/optuna_opt_aggressive.py` lines
81, 88). -/
def sanitize (cs : List Char) : List Char :=
  cs.flatMap fun c => if c = '\\' then ['\\', '\\'] else [c]

/-- Trailing-trim loop of the aggressive `run_experiment` (lines 85-91),
sanitizing each candidate before parsing. -/
def trimLoop (cs : List Char) : Nat → Option Json
  | 0 => none
  | i + 1 =>
    match PyJson.jsonParse (sanitize (cs.take (i + 1))) with
    | some r => some r
    | none => trimLoop cs i

/-- Output parsing of `run_experiment` in `tools/optuna_opt_aggressive.py`
(lines 73-93): same as the plain variant, with backslash sanitization before
every parse attempt. -/
def parsePipeline (jtxt : List Char) : Except String Json :=
  -- `try: json.loads(sanitized)` / trim loop / re-raise
  match PyJson.jsonParse (sanitize jtxt) with
  | some r => .ok r
  | none =>
    match trimLoop jtxt jtxt.length with
    | some r => .ok r
    | none => .error "json.JSONDecodeError"

def runExperimentParse (out : List Char) : Except String Json :=
  match PyStr.pyFind out '{' with
  | none => .error "RuntimeError: No JSON output from runner"
  | some jstart => parsePipeline (PyStr.stripList (out.drop jstart))

/-- Integer min/max pair of the aggressive `traverse` (lines 130-138):
`search_low = max(0, int(base_min * 0.1)); search_high = int(base_max * 10)`
(the latter is exact integer arithmetic), `v_min` over
`[search_low, search_high]`. -/
def aggIntPairMinRange (bm bx : Int) : Int × Int :=
  (max 0 (pyTrunc ((bm : ℚ) / 10)), bx * 10)

/-- `v_max = trial.suggest_int(name2, v_min + 1, max(v_min + 1, search_high))`. -/
def aggIntPairMaxRange (bx vmin : Int) : Int × Int :=
  (vmin + 1, max (vmin + 1) (bx * 10))

/-- Float min/max pair (lines 139-146): `search_low = max(0.0, base_min *
0.05); search_high = base_max * 20.0`, `v_min` over the whole range. -/
def aggFloatPairMinRange (bm bx : ℚ) : ℚ × ℚ :=
  (max 0 (bm * (5 / 100)), bx * 20)

/-- `v_max = trial.suggest_float(name2, v_min + 0.01, max(v_min + 0.01, search_high))`. -/
def aggFloatPairMaxRange (bx vmin : ℚ) : ℚ × ℚ :=
  (vmin + 1 / 100, max (vmin + 1 / 100) (bx * 20))

/-- Numeric-leaf branch of the aggressive `traverse` (lines 162-179): the
probability heuristic is identical; otherwise integers get
`[max(1, int(node * 0.1)), int(node * 20)]` and floats
`[max(0.001, node * 0.05), node * 50.0]`. -/
def leafBoundAgg (v : PyNum) : SuggestBound :=
  if 0 ≤ v.val ∧ v.val ≤ 1 then .floats 0 1
  else
    match v with
    | .int n => .ints (max 1 (pyTrunc ((n : ℚ) / 10))) (n * 20)
    | .float q => .floats (max (1 / 1000) (q * (5 / 100))) (q * 50)

/-- `isinstance(x, (int, float))` — Python `bool` is a subclass of `int`,
so it passes this test too. -/
def isNumPy : Json → Bool
  | .int _ => true
  | .num _ => true
  | .bool _ => true
  | _ => false

/-- The paired-range test of the walk: `'min' in node and 'max' in node and
isinstance(node['min'], (int, float)) and isinstance(node['max'], (int, float))`. -/
def isPairNode (es : List (String × Json)) : Bool :=
  match dictGet es "min", dictGet es "max" with
  | some a, some b => isNumPy a && isNumPy b
  | _, _ => false

mutual

/-- `build_param_map(node, path_prefix, out)` from `main` in
`tools/optuna_opt_aggressive.py` (lines 364-381): a paired node emits the
min name `'_'.join(path + ['min'])` and the max name obtained from it by
`.replace('_min', '_max')`; a non-pair mapping recurses over its items; a
bool or numeric leaf emits `'_'.join(path)`; everything else is skipped.
`out` is a Python dict, so a repeated name overwrites the earlier path. -/
def build_param_map : Json → List String → List (String × List String) → List (String × List String)
  | .obj es, p, out =>
    if isPairNode es then
      let pmin := PyStr.joinU (p ++ ["min"])
      let pmax := PyStr.pyReplace pmin "_min" "_max"
      dictSet (dictSet out pmin (p ++ ["min"])) pmax (p ++ ["max"])
    else bpmList es p out
  | .bool _, p, out => dictSet out (PyStr.joinU p) p
  | .int _, p, out => dictSet out (PyStr.joinU p) p
  | .num _, p, out => dictSet out (PyStr.joinU p) p
  | _, _, out => out

/-- `for k, v in node.items(): build_param_map(v, path_prefix + [k], out)`. -/
def bpmList : List (String × Json) → List String → List (String × List String) → List (String × List String)
  | [], _, out => out
  | (k, v) :: rest, p, out => bpmList rest p (build_param_map v (p ++ [k]) out)

end

mutual

/-- The tunable paths the walk visits, in emission order (a pair node
contributes its `min` and `max` paths, a leaf its own path). -/
def tunablePaths : Json → List String → List (List String)
  | .obj es, p =>
    if isPairNode es then [p ++ ["min"], p ++ ["max"]] else tpList es p
  | .bool _, p => [p]
  | .int _, p => [p]
  | .num _, p => [p]
  | _, _ => []

def tpList : List (String × Json) → List String → List (List String)
  | [], _ => []
  | (k, v) :: rest, p => tunablePaths v (p ++ [k]) ++ tpList rest p

end

/-- The materialization loop of `main` (lines 386-394): for each parameter
present in the assignment, navigate its path into the (deep-copied) attack
config and set the leaf. -/
def materialize (cfg : Json) (pm : List (String × List String))
    (assign : String → Option Json) : Except String Json :=
  match pm with
  | [] => .ok cfg
  | (pname, path) :: rest =>
    match assign pname with
    | none => materialize cfg rest assign
    | some v =>
      match setPath cfg path v with
      | .ok cfg' => materialize cfg' rest assign
      | .error e => .error e

end OptunaOptAggressive

namespace OptimizerDb

/-- One raw CSV row of `target/tracking/optimizer_results.csv`, as
`csv.DictReader` hands it to the scans in `tools/optimizer_db.py` — every
field is a string. -/
structure Row where
  optimizer_id : String
  timestamp : String
  attack_key : String
  attack_combination : String
  optimizer_type : String
  num_trials : String
  best_metric_f1 : String
  best_parameters_json : String
  config_base_path : String
  notes : String
  deriving DecidableEq, Repr

/-- `json.loads(row['best_parameters_json']) if row['best_parameters_json']
else {}` — the empty string short-circuits to `{}`. -/
def parseParams (s : String) : Except String Json :=
  if s = "" then .ok (.obj [])
  else
    match PyJson.jsonParse s.data with
    | some p => .ok p
    | none => .error "json.JSONDecodeError"

/-- The dict built by `get_best_for_attack` for a new best row
(`tools/optimizer_db.py` lines 66-76). -/
structure AttackBest where
  optimizer_id : String
  timestamp : String
  attack_key : String
  optimizer_type : String
  num_trials : Int
  best_metric_f1 : Flt
  best_parameters : Json
  config_base_path : String
  notes : String

/-- Build the best-record dict from a matching row; the dict literal
evaluates `int(row['num_trials'])` before `json.loads(...)`, and either
may raise. -/
def buildAttackBest (r : Row) (f1 : Flt) : Except String AttackBest :=
  match PyStr.pyInt r.num_trials with
  | none => .error "ValueError: invalid literal for int()"
  | some nt =>
    match parseParams r.best_parameters_json with
    | .ok ps =>
      .ok ⟨r.optimizer_id, r.timestamp, r.attack_key, r.optimizer_type, nt, f1, ps,
        r.config_base_path, r.notes⟩
    | .error e => .error e

/-- The scan loop of `get_best_for_attack` (lines 60-76): filter on
`row['attack_key'] == attack_key`, parse the score with `float(...)`
(raising on a malformed field), keep the strictly smaller score. -/
def bestAttackLoop (key : String) : Option AttackBest → List Row → Except String (Option AttackBest)
  | best, [] => .ok best
  | best, r :: rest =>
    if r.attack_key = key then
      match PyStr.pyFloat r.best_metric_f1 with
      | none => .error "ValueError: could not convert string to float"
      | some f1 =>
        let better : Bool :=
          match best with
          | none => true
          | some b => f1.blt b.best_metric_f1
        if better then
          match buildAttackBest r f1 with
          | .ok b' => bestAttackLoop key (some b') rest
          | .error e => .error e
        else bestAttackLoop key best rest
    else bestAttackLoop key best rest

/-- `get_best_for_attack(attack_key)` over an already-read list of rows
(the CSV file-reading layer is external I/O and is not embedded). -/
def get_best_for_attack (rows : List Row) (key : String) : Except String (Option AttackBest) :=
  bestAttackLoop key none rows

/-- Python `sorted` on strings: stable sort by code-point lexicographic
order. -/
def pySorted (l : List String) : List String :=
  List.insertionSort (fun a b => PyStr.strLe a b = true) l

/-- `",".join(l)`. -/
def joinComma (l : List String) : String := String.intercalate "," l

/-- `s.split(',')` returning strings. -/
def splitCommaStr (s : String) : List String :=
  (PyStr.splitComma s.data).map fun cs => ⟨cs⟩

/-- `combination_key = ",".join(sorted(attack_keys))` (line 92). -/
def combination_key (keys : List String) : String := joinComma (pySorted keys)

/-- `row_combo = ",".join(sorted(row['attack_combination'].split(',')))`
(line 98). -/
def row_combo (r : Row) : String :=
  joinComma (pySorted (splitCommaStr r.attack_combination))

/-- The dict built by `get_best_for_combination` (lines 102-112). -/
structure ComboBest where
  optimizer_id : String
  timestamp : String
  attack_combination : String
  optimizer_type : String
  num_trials : Int
  best_metric_f1 : Flt
  best_parameters : Json
  config_base_path : String
  notes : String

def buildComboBest (r : Row) (f1 : Flt) : Except String ComboBest :=
  match PyStr.pyInt r.num_trials with
  | none => .error "ValueError: invalid literal for int()"
  | some nt =>
    match parseParams r.best_parameters_json with
    | .ok ps =>
      .ok ⟨r.optimizer_id, r.timestamp, r.attack_combination, r.optimizer_type, nt, f1, ps,
        r.config_base_path, r.notes⟩
    | .error e => .error e

/-- The scan loop of `get_best_for_combination` (lines 95-112). -/
def bestComboLoop (ck : String) : Option ComboBest → List Row → Except String (Option ComboBest)
  | best, [] => .ok best
  | best, r :: rest =>
    if row_combo r = ck then
      match PyStr.pyFloat r.best_metric_f1 with
      | none => .error "ValueError: could not convert string to float"
      | some f1 =>
        let better : Bool :=
          match best with
          | none => true
          | some b => f1.blt b.best_metric_f1
        if better then
          match buildComboBest r f1 with
          | .ok b' => bestComboLoop ck (some b') rest
          | .error e => .error e
        else bestComboLoop ck best rest
    else bestComboLoop ck best rest

/-- `get_best_for_combination(attack_keys)` (lines 87-119). -/
def get_best_for_combination (rows : List Row) (keys : List String) : Except String (Option ComboBest) :=
  bestComboLoop (combination_key keys) none rows

/-- One entry of `get_all_results` (lines 130-141). -/
structure ResultEntry where
  optimizer_id : String
  timestamp : String
  attack_key : String
  attack_combination : String
  optimizer_type : String
  num_trials : Int
  best_metric_f1 : Flt
  best_parameters : Json
  config_base_path : String
  notes : String

/-- The dict literal of `get_all_results`: `int(row['num_trials'])`,
`float(row['best_metric_f1'])` and `json.loads(...)` evaluate in that order,
each able to raise. -/
def buildResultEntry (r : Row) : Except String ResultEntry :=
  match PyStr.pyInt r.num_trials with
  | none => .error "ValueError: invalid literal for int()"
  | some nt =>
    match PyStr.pyFloat r.best_metric_f1 with
    | none => .error "ValueError: could not convert string to float"
    | some f1 =>
      match parseParams r.best_parameters_json with
      | .ok ps =>
        .ok ⟨r.optimizer_id, r.timestamp, r.attack_key, r.attack_combination,
          r.optimizer_type, nt, f1, ps, r.config_base_path, r.notes⟩
      | .error e => .error e

/-- The accumulation loop of `get_all_results` (lines 126-143):
`results.append({...})` for every row, with no exception handling. -/
def allResultsLoop : List Row → List ResultEntry → Except String (List ResultEntry)
  | [], acc => .ok acc
  | r :: rest, acc =>
    match buildResultEntry r with
    | .ok e => allResultsLoop rest (acc ++ [e])
    | .error err => .error err

/-- `get_all_results()` over an already-read list of rows. -/
def get_all_results (rows : List Row) : Except String (List ResultEntry) :=
  allResultsLoop rows []

/-- The scores of the rows matching a key, in scan order — the
`float(row['best_metric_f1'])` of every row passing the
`row['attack_key'] == attack_key` filter. -/
def matchingScores (rows : List Row) (key : String) : List Flt :=
  rows.filterMap fun r =>
    if r.attack_key = key then PyStr.pyFloat r.best_metric_f1 else none

end OptimizerDb

namespace OptunaOptAggressive

mutual

/-- The `(name, path)` emission sequence of `build_param_map`, in visit
order: what the walk inserts into `out`, before the dict collapses repeated
names. -/
def emitted : Json → List String → List (String × List String)
  | .obj es, p =>
    if isPairNode es then
      let pmin := PyStr.joinU (p ++ ["min"])
      [(pmin, p ++ ["min"]), (PyStr.pyReplace pmin "_min" "_max", p ++ ["max"])]
    else emittedList es p
  | .bool _, p => [(PyStr.joinU p, p)]
  | .int _, p => [(PyStr.joinU p, p)]
  | .num _, p => [(PyStr.joinU p, p)]
  | _, _ => []

def emittedList : List (String × Json) → List String → List (String × List String)
  | [], _ => []
  | (k, v) :: rest, p => emitted v (p ++ [k]) ++ emittedList rest p

end

end OptunaOptAggressive

/-- Two key paths that part ways at some depth: they share a (possibly
empty) prefix and then carry different keys.  Distinct tunable paths always
diverge (the walk never emits one path as a prefix of another). -/
inductive Diverge : List String → List String → Prop
  | head {a b : String} {l1 l2 : List String} (h : a ≠ b) : Diverge (a :: l1) (b :: l2)
  | cons {k : String} {l1 l2 : List String} (h : Diverge l1 l2) : Diverge (k :: l1) (k :: l2)

/-- Pairwise-distinct strings, computably. -/
def distinctKeys : List String → Bool
  | [] => true
  | k :: ks => (!ks.contains k) && distinctKeys ks

mutual

/-- A well-formed document: every mapping has pairwise-distinct keys (true
of anything produced by `json.load`, where a duplicate key overwrites). -/
def wfDoc : Json → Bool
  | .obj es => distinctKeys (es.map Prod.fst) && wfList es
  | .arr xs => wfArr xs
  | _ => true

def wfList : List (String × Json) → Bool
  | [] => true
  | (_, v) :: rest => wfDoc v && wfList rest

def wfArr : List Json → Bool
  | [] => true
  | v :: rest => wfDoc v && wfArr rest

end

section ExampleData

/-- Name-collision baseline: the distinct paths `["a","b_c"]` and
`["a_b","c"]` both produce the parameter name `a_b_c`. -/
def cfgCollide : Json :=
  .obj [("a", .obj [("b_c", .num ⟨5, 10⟩)]), ("a_b", .obj [("c", .num ⟨7, 10⟩)])]

/-- The spec's walker example: `{"count": {"lambda": 1188}, "window":
{"min": 1.0, "max": 9.0}}`. -/
def cfgWindow : Json :=
  .obj [("count", .obj [("lambda", .int 1188)]),
        ("window", .obj [("min", .num ⟨10, 10⟩), ("max", .num ⟨90, 10⟩)])]

/-- A ledger row with the given attack key and score field (other fields
fixed, parameters empty). -/
def exRow (k f1 : String) : OptimizerDb.Row :=
  ⟨"id", "ts", k, "", "opt", "10", f1, "", "", ""⟩

/-- A ledger row with the given combination field and score field. -/
def exRowC (comb f1 : String) : OptimizerDb.Row :=
  ⟨"id", "ts", "", comb, "opt", "10", f1, "", "", ""⟩

/-- A ledger row with the given attack key, score field and serialized
parameters field. -/
def exRowP (k f1 ps : String) : OptimizerDb.Row :=
  ⟨"id", "ts", k, "", "opt", "10", f1, ps, "", ""⟩

/-- The runner output of the spec's third stub-runner test: `garbage{{{`
followed by the metric object. -/
def outGarbageBraces : List Char := ("garbage\x7b\x7b\x7b" ++ "\x7b\"metric_f1\": 0.42\x7d").data

/-- Runner output with only trailing garbage after the metric object. -/
def outTrailing : List Char := "garbage\x7b\"metric_f1\": 0.42\x7dtail".data

end ExampleData

/-! ## Theorems -/

section Claims

open OptunaOpt

/-- C1 counterexample: a runner that exits with code 1 but still prints a
parseable metric object makes the objective return the parsed score 0.42,
not the penalty 2.0 — the exit code is never consulted, refuting "the runner
exits non-zero … the objective function returns the fixed penalty 2.0". -/
theorem c1_counterexample :
    OptunaOpt.objective (.completed 1 "\x7b\"metric_f1\": 0.42\x7d".data) = .ok ⟨42, 100⟩ ∧
    Flt.toRat ⟨42, 100⟩ = 21 / 50 ∧ Flt.toRat ⟨42, 100⟩ ≠ Flt.toRat ⟨2, 1⟩ := by
  refine ⟨rfl, by norm_num [Flt.toRat], by norm_num [Flt.toRat]⟩

/-- C1 (amended): whenever `run_experiment` raises — the launch fails
(missing executable) or the captured output is unparseable even after
trimming — the objective returns exactly the penalty `2.0`, which is
strictly greater than 1 and hence outside the metric's valid range `[0,1]`;
no exception propagates.  (The exit code is not consulted and no timeout is
configured, so neither can trigger the penalty by itself.) -/
theorem c1_amended_penalty (o : OptunaOpt.RunnerOutcome)
    (h : ∃ e, OptunaOpt.run_experiment o = .error e) :
    OptunaOpt.objective o = .ok ⟨2, 1⟩ ∧ 1 < Flt.toRat ⟨2, 1⟩ := by
  obtain ⟨e, he⟩ := h
  refine ⟨?_, by norm_num [Flt.toRat]⟩
  unfold OptunaOpt.objective
  rw [he]

/-- C1 witness: a stub runner exiting with code 1 and printing `no data
here` yields the penalty. -/
theorem c1_amended_penalty_witness :
    (∃ e, OptunaOpt.run_experiment (.completed 1 "no data here".data) = .error e) ∧
    OptunaOpt.objective (.completed 1 "no data here".data) = .ok ⟨2, 1⟩ ∧
    1 < Flt.toRat ⟨2, 1⟩ :=
  ⟨⟨_, rfl⟩, c1_amended_penalty _ ⟨_, rfl⟩⟩

/-- C2 counterexample: for output `garbage{{{` followed by
`{"metric_f1": 0.42}` the scan locks onto the first stray `{`, every
trailing-trim prefix still starts with `{{` and fails to parse, so
`run_experiment` raises and the objective returns the penalty 2.0 — the
claimed recovery of 0.42 does not happen. -/
theorem c2_counterexample :
    OptunaOpt.runExperimentParse outGarbageBraces = .error "json.JSONDecodeError" ∧
    OptunaOpt.objective (.completed 0 outGarbageBraces) = .ok ⟨2, 1⟩ ∧
    Flt.toRat ⟨2, 1⟩ ≠ 21 / 50 :=
  ⟨rfl, rfl, by norm_num [Flt.toRat]⟩

/-- The trailing-trim loop returns the parse of the longest parsing prefix:
if prefix `i` parses and every longer prefix up to `n` fails, the countdown
from `n` yields that parse. -/
theorem trimLoop_longest (cs : List Char) (i : Nat) (r : Json)
    (h1 : 1 ≤ i)
    (h5 : PyJson.jsonParse (cs.take i) = some r) :
    ∀ n, i ≤ n →
      (∀ j, i < j → j ≤ n → (PyJson.jsonParse (cs.take j)).isNone = true) →
      OptunaOpt.trimLoop cs n = some r := by
  intro n
  induction n with
  | zero => intro hin _; omega
  | succ m ih =>
    intro hin hnone
    unfold OptunaOpt.trimLoop
    rcases Nat.lt_or_ge i (m + 1) with hlt | hge
    · have hx : (PyJson.jsonParse (cs.take (m + 1))).isNone = true :=
        hnone (m + 1) hlt le_rfl
      rw [Option.isNone_iff_eq_none] at hx
      rw [hx]
      exact ih (by omega) fun j hj hj2 => hnone j hj (by omega)
    · have hi : i = m + 1 := by omega
      rw [← hi, h5]

/-- C2 (amended): `run_experiment` takes the captured output from the first
`{` onward (stripped), parses it, and on failure returns the parse of the
longest prefix that parses, failing only when every prefix fails.  The
spec's `garbage{{{` example is *not* recovered (see the counterexample):
recovery works when the garbage sits after the object (or before the first
`{`), not when stray braces precede it. -/
theorem c2_amended_longest_prefix (out : List Char) (jstart i : Nat) (r : Json)
    (h1 : PyStr.pyFind out '{' = some jstart)
    (h3 : 1 ≤ i)
    (h4 : i ≤ (PyStr.stripList (out.drop jstart)).length)
    (h5 : PyJson.jsonParse ((PyStr.stripList (out.drop jstart)).take i) = some r)
    (h6 : ∀ j, i < j → j ≤ (PyStr.stripList (out.drop jstart)).length →
        (PyJson.jsonParse ((PyStr.stripList (out.drop jstart)).take j)).isNone = true) :
    OptunaOpt.runExperimentParse out = .ok r := by
  unfold OptunaOpt.runExperimentParse
  rw [h1]
  show OptunaOpt.parsePipeline _ = _
  unfold OptunaOpt.parsePipeline
  rcases Nat.lt_or_ge i (PyStr.stripList (out.drop jstart)).length with hlt | hge
  · have hfull : (PyJson.jsonParse (PyStr.stripList (out.drop jstart))).isNone = true := by
      have := h6 (PyStr.stripList (out.drop jstart)).length hlt le_rfl
      rwa [List.take_length] at this
    rw [Option.isNone_iff_eq_none] at hfull
    rw [hfull, trimLoop_longest _ i r h3 h5 _ h4 h6]
  · have hi : i = (PyStr.stripList (out.drop jstart)).length := by omega
    have hfull : PyJson.jsonParse (PyStr.stripList (out.drop jstart)) = some r := by
      rw [← List.take_length (PyStr.stripList (out.drop jstart)), ← hi, h5]
    rw [hfull]

/-- C2 witness: for `garbage{"metric_f1": 0.42}tail` (garbage *after* the
object) the longest parsing prefix is the 19-character object and
`run_experiment` recovers the score 0.42. -/
theorem c2_amended_longest_prefix_witness :
    PyStr.pyFind outTrailing '{' = some 7 ∧
    PyJson.jsonParse ((PyStr.stripList (outTrailing.drop 7)).take 19) =
      some (.obj [("metric_f1", .num ⟨42, 100⟩)]) ∧
    OptunaOpt.runExperimentParse outTrailing = .ok (.obj [("metric_f1", .num ⟨42, 100⟩)]) := by
  have hb : ∀ j < 24, 19 < j →
      (PyJson.jsonParse ((PyStr.stripList (outTrailing.drop 7)).take j)).isNone = true := by
    decide
  exact ⟨rfl, rfl,
    c2_amended_longest_prefix outTrailing 7 19 _ rfl (by decide) (by decide) rfl
      (fun j hj hj2 => hb j (Nat.lt_succ_of_le (le_trans hj2 (by decide))) hj)⟩

/-- C3: whatever values the sampler draws inside the suggested bounds of a
paired min/max node, the sampled min is strictly below the sampled max — in
the integer and the real case, in both the standard and the aggressive
optimizer (the max parameter's lower bound is `v_min + 1`, `v_min + 1e-6`
or `v_min + 0.01`). -/
theorem c3_pair_min_lt_max :
    (∀ bm bx vmin vmax : Int,
      (OptunaOpt.intPairMinRange bm bx).1 ≤ vmin ∧ vmin ≤ (OptunaOpt.intPairMinRange bm bx).2 →
      (OptunaOpt.intPairMaxRange bx vmin).1 ≤ vmax ∧ vmax ≤ (OptunaOpt.intPairMaxRange bx vmin).2 →
      vmin < vmax) ∧
    (∀ bm bx vmin vmax : ℚ,
      (OptunaOpt.floatPairMinRange bm bx).1 ≤ vmin ∧ vmin ≤ (OptunaOpt.floatPairMinRange bm bx).2 →
      (OptunaOpt.floatPairMaxRange bm bx vmin).1 ≤ vmax ∧
        vmax ≤ (OptunaOpt.floatPairMaxRange bm bx vmin).2 →
      vmin < vmax) ∧
    (∀ bm bx vmin vmax : Int,
      (OptunaOptAggressive.aggIntPairMinRange bm bx).1 ≤ vmin ∧
        vmin ≤ (OptunaOptAggressive.aggIntPairMinRange bm bx).2 →
      (OptunaOptAggressive.aggIntPairMaxRange bx vmin).1 ≤ vmax ∧
        vmax ≤ (OptunaOptAggressive.aggIntPairMaxRange bx vmin).2 →
      vmin < vmax) ∧
    (∀ bm bx vmin vmax : ℚ,
      (OptunaOptAggressive.aggFloatPairMinRange bm bx).1 ≤ vmin ∧
        vmin ≤ (OptunaOptAggressive.aggFloatPairMinRange bm bx).2 →
      (OptunaOptAggressive.aggFloatPairMaxRange bx vmin).1 ≤ vmax ∧
        vmax ≤ (OptunaOptAggressive.aggFloatPairMaxRange bx vmin).2 →
      vmin < vmax) := by
  refine ⟨?_, ?_, ?_, ?_⟩
  · intro bm bx vmin vmax _ h2
    have := h2.1
    simp only [OptunaOpt.intPairMaxRange] at this
    omega
  · intro bm bx vmin vmax _ h2
    have h := le_trans (le_max_left _ _) h2.1
    have he : (0 : ℚ) < OptunaOpt.eps6 := by norm_num [OptunaOpt.eps6]
    linarith
  · intro bm bx vmin vmax _ h2
    have := h2.1
    simp only [OptunaOptAggressive.aggIntPairMaxRange] at this
    omega
  · intro bm bx vmin vmax _ h2
    have := h2.1
    simp only [OptunaOptAggressive.aggFloatPairMaxRange] at this
    linarith

/-- C3 witness: concrete sampled pairs inside the suggested bounds, one per
case. -/
theorem c3_pair_min_lt_max_witness :
    (2 : Int) < 5 ∧ (1 : ℚ) < 2 ∧ (3 : Int) < 7 ∧ (1 : ℚ) < 3 / 2 := by
  refine ⟨c3_pair_min_lt_max.1 1 9 2 5 ?_ ?_, c3_pair_min_lt_max.2.1 1 9 1 2 ?_ ?_,
    c3_pair_min_lt_max.2.2.1 0 9 3 7 ?_ ?_, c3_pair_min_lt_max.2.2.2 0 9 1 (3 / 2) ?_ ?_⟩
  · exact ⟨by decide, by decide⟩
  · exact ⟨by decide, by decide⟩
  · constructor <;> norm_num [OptunaOpt.floatPairMinRange, OptunaOpt.eps6]
  · constructor <;> norm_num [OptunaOpt.floatPairMaxRange, OptunaOpt.eps6]
  · constructor <;> norm_num [OptunaOptAggressive.aggIntPairMinRange, pyTrunc]
  · constructor <;> norm_num [OptunaOptAggressive.aggIntPairMaxRange]
  · constructor <;> norm_num [OptunaOptAggressive.aggFloatPairMinRange]
  · constructor <;> norm_num [OptunaOptAggressive.aggFloatPairMaxRange]

/-- C5: however many `write_config` calls run, the baseline configuration
document is value-equal afterwards to what it was before — each call
re-reads the baseline file and merges into that fresh copy, writing the
result elsewhere — so the baseline may be reused across trials. -/
theorem c5_baseline_preserved (st : OptunaOpt.FsState) (ps : List Json)
    (st' : OptunaOpt.FsState) (h : OptunaOpt.runPatches st ps = .ok st') :
    st'.baseline = st.baseline := by
  induction ps generalizing st with
  | nil =>
    unfold OptunaOpt.runPatches at h
    cases h
    rfl
  | cons p ps ih =>
    unfold OptunaOpt.runPatches at h
    cases hw : OptunaOpt.write_config st p with
    | error e => rw [hw] at h; cases h
    | ok st1 =>
      rw [hw] at h
      have hb : st1.baseline = st.baseline := by
        unfold OptunaOpt.write_config at hw
        cases hm : OptunaOpt.merge st.baseline p with
        | ok m => rw [hm] at hw; cases hw; rfl
        | error e => rw [hm] at hw; cases hw
      rw [ih st1 h, hb]

/-- C5 witness: two successive patches against a concrete baseline leave the
baseline component untouched. -/
theorem c5_baseline_preserved_witness :
    OptunaOpt.runPatches ⟨.obj [("a", .int 1)], []⟩
        [.obj [("a", .int 2)], .obj [("b", .obj [("c", .int 3)])]] =
      .ok ⟨.obj [("a", .int 1)],
        [.obj [("a", .int 2)], .obj [("a", .int 1), ("b", .obj [("c", .int 3)])]]⟩ ∧
    (⟨.obj [("a", .int 1)],
        [.obj [("a", .int 2)], .obj [("a", .int 1), ("b", .obj [("c", .int 3)])]]⟩ :
      OptunaOpt.FsState).baseline =
      (⟨.obj [("a", .int 1)], []⟩ : OptunaOpt.FsState).baseline := by
  have h : OptunaOpt.runPatches ⟨.obj [("a", .int 1)], []⟩
      [.obj [("a", .int 2)], .obj [("b", .obj [("c", .int 3)])]] =
      .ok ⟨.obj [("a", .int 1)],
        [.obj [("a", .int 2)], .obj [("a", .int 1), ("b", .obj [("c", .int 3)])]]⟩ := by
    simp [OptunaOpt.runPatches, OptunaOpt.write_config, OptunaOpt.merge, OptunaOpt.mergeList,
      dictGetD, dictGet, dictSet]
  exact ⟨h, c5_baseline_preserved _ _ _ h⟩

/-- C6: every numeric baseline leaf whose value lies in `[0,1]` — including
exactly 0 — is treated as a probability and gets the suggest bound exactly
`[0,1]` (a non-degenerate interval), in both optimizers. -/
theorem c6_unit_interval_bound (v : PyNum) (h0 : 0 ≤ v.val) (h1 : v.val ≤ 1) :
    OptunaOpt.leafBound v = .floats 0 1 ∧
    OptunaOptAggressive.leafBoundAgg v = .floats 0 1 ∧ (0 : ℚ) < 1 := by
  refine ⟨?_, ?_, by norm_num⟩
  · unfold OptunaOpt.leafBound
    rw [if_pos ⟨h0, h1⟩]
  · unfold OptunaOptAggressive.leafBoundAgg
    rw [if_pos ⟨h0, h1⟩]

/-- C6 witness: the degenerate leaf `0` still gets the full-width `[0,1]`
bound. -/
theorem c6_unit_interval_bound_witness :
    OptunaOpt.leafBound (.int 0) = .floats 0 1 ∧
    OptunaOptAggressive.leafBoundAgg (.int 0) = .floats 0 1 ∧ (0 : ℚ) < 1 :=
  c6_unit_interval_bound (.int 0) (by simp [PyNum.val]) (by simp [PyNum.val])

/-- A non-empty patch dict merged into a non-dict raises (`d.get` /
item assignment on a non-dict). -/
theorem mergeList_nonObj_error (j : Json) (hj : j.isObj = false)
    (k : String) (v : Json) (xs : List (String × Json)) :
    ∃ e, OptunaOpt.mergeList j ((k, v) :: xs) = .error e := by
  cases v <;> cases j <;> simp_all [OptunaOpt.mergeList, Json.isObj]

/-- C9 counterexample: where the baseline holds a non-mapping and the patch
a mapping at the same key, the deep merge raises (`TypeError` /
`AttributeError`) instead of overwriting the value with a new mapping and
completing. -/
theorem c9_counterexample :
    OptunaOpt.merge (.obj [("a", .int 5)]) (.obj [("a", .obj [("b", .int 1)])]) =
      .error "TypeError" ∧
    OptunaOpt.merge (.obj [("a", .int 5)]) (.obj [("a", .obj [("b", .obj [])])]) =
      .error "AttributeError" := by
  constructor <;>
    simp [OptunaOpt.merge, OptunaOpt.mergeList, dictGetD, dictGet, dictSet]

/-- C9 (amended): when a patch carries a non-empty nested mapping at a key
where the baseline holds a non-mapping, `merge` raises rather than
overwriting (no warning is logged anywhere); the overwrite-with-fresh-mapping
behaviour exists only inside `set_in_patch`, which replaces a non-dict
intermediate of the *patch* being built with `{}` and completes. -/
theorem c9_amended_merge_raises :
    (∀ (dl : List (String × Json)) (k : String) (j : Json)
        (ves rest : List (String × Json)),
      dictGet dl k = some j → j.isObj = false → ves ≠ [] →
      ∃ e, OptunaOpt.merge (.obj dl) (.obj ((k, .obj ves) :: rest)) = .error e) ∧
    (∀ (a k leaf : String) (j v : Json), j.isObj = false →
      OptunaOpt.set_in_patch (.obj [("attacksParams", .obj [(a, .obj [(k, j)])])])
          [a, k, leaf] v =
        .ok (.obj [("attacksParams", .obj [(a, .obj [(k, .obj [(leaf, v)])])])])) := by
  constructor
  · intro dl k j ves rest hget hobj hne
    obtain ⟨x, xs, rfl⟩ : ∃ x xs, ves = x :: xs := by
      cases ves with
      | nil => exact absurd rfl hne
      | cons a b => exact ⟨a, b, rfl⟩
    obtain ⟨k2, v2⟩ := x
    obtain ⟨e, he⟩ := mergeList_nonObj_error j hobj k2 v2 xs
    refine ⟨e, ?_⟩
    have hd : dictGetD dl k (Json.obj []) = j := by simp [dictGetD, hget]
    simp only [OptunaOpt.merge]
    rw [OptunaOpt.mergeList.eq_def]
    dsimp only
    rw [hd, he]
  · intro a k leaf j v hj
    have hchild : (match some j with
        | some (Json.obj cl) => Json.obj cl
        | _ => Json.obj []) = Json.obj [] := by
      cases j <;> simp_all [Json.isObj]
    unfold OptunaOpt.set_in_patch
    simp [dictGet, dictGetD, dictSet, OptunaOpt.setWalk, hchild]

/-- C9 witness: baseline `{"a": 5}` with patch `{"a": {"b": 1}}` raises,
and `set_in_patch` really does overwrite a non-dict intermediate of the
patch with a fresh mapping. -/
theorem c9_amended_merge_raises_witness :
    (∃ e, OptunaOpt.merge (.obj [("a", .int 5)]) (.obj [("a", .obj [("b", .int 1)])]) =
      .error e) ∧
    OptunaOpt.set_in_patch (.obj [("attacksParams", .obj [("atk", .obj [("k", .int 5)])])])
        ["atk", "k", "leaf"] (.int 7) =
      .ok (.obj [("attacksParams", .obj [("atk", .obj [("k", .obj [("leaf", .int 7)])])])]) :=
  ⟨c9_amended_merge_raises.1 [("a", .int 5)] "a" (.int 5) [("b", .int 1)] [] rfl rfl
      (by simp),
    c9_amended_merge_raises.2 "atk" "k" "leaf" (.int 5) (.int 7) rfl⟩

/-- Lexicographic string comparison is total. -/
theorem lexLe_total : ∀ a b : List Char, PyStr.lexLe a b = true ∨ PyStr.lexLe b a = true := by
  intro a
  induction a with
  | nil => intro b; exact Or.inl rfl
  | cons x xs ih =>
    intro b
    cases b with
    | nil => exact Or.inr rfl
    | cons y ys =>
      rcases lt_trichotomy x y with h | h | h
      · left; simp [PyStr.lexLe, h]
      · subst h
        rcases ih ys with h2 | h2
        · left; simp [PyStr.lexLe, lt_irrefl, h2]
        · right; simp [PyStr.lexLe, lt_irrefl, h2]
      · right; simp [PyStr.lexLe, h]

/-- Lexicographic string comparison is transitive. -/
theorem lexLe_trans : ∀ a b c : List Char,
    PyStr.lexLe a b = true → PyStr.lexLe b c = true → PyStr.lexLe a c = true := by
  intro a
  induction a with
  | nil => intro b c _ _; rfl
  | cons x xs ih =>
    intro b c hab hbc
    cases b with
    | nil => simp [PyStr.lexLe] at hab
    | cons y ys =>
      cases c with
      | nil => simp [PyStr.lexLe] at hbc
      | cons z zs =>
        simp only [PyStr.lexLe] at hab hbc ⊢
        split at hab
        · rename_i hxy
          split at hbc
          · rename_i hyz
            rw [if_pos (lt_trans hxy hyz)]
          · split at hbc
            · simp at hbc
            · rename_i h1 h2
              have hyz : y = z := le_antisymm (not_lt.mp h2) (not_lt.mp h1)
              subst hyz
              rw [if_pos hxy]
        · split at hab
          · simp at hab
          · rename_i h1 h2
            have hxy : x = y := le_antisymm (not_lt.mp h2) (not_lt.mp h1)
            subst hxy
            split at hbc
            · rename_i hyz
              rw [if_pos hyz]
            · split at hbc
              · simp at hbc
              · rename_i h1' h2'
                have hyz : x = z := le_antisymm (not_lt.mp h2') (not_lt.mp h1')
                subst hyz
                rw [if_neg h1', if_neg h2']
                exact ih ys zs hab hbc

/-- Lexicographic string comparison is antisymmetric. -/
theorem lexLe_antisymm : ∀ a b : List Char,
    PyStr.lexLe a b = true → PyStr.lexLe b a = true → a = b := by
  intro a
  induction a with
  | nil =>
    intro b _ hba
    cases b with
    | nil => rfl
    | cons y ys => simp [PyStr.lexLe] at hba
  | cons x xs ih =>
    intro b hab hba
    cases b with
    | nil => simp [PyStr.lexLe] at hab
    | cons y ys =>
      simp only [PyStr.lexLe] at hab hba
      split at hab
      · rename_i hxy
        rw [if_neg (lt_asymm hxy), if_pos hxy] at hba
        simp at hba
      · split at hab
        · simp at hab
        · rename_i h1 h2
          have hxy : x = y := le_antisymm (not_lt.mp h2) (not_lt.mp h1)
          subst hxy
          rw [if_neg h1, if_neg h2] at hba
          rw [ih ys hab hba]

/-- Python `sorted` is permutation-invariant: permuting the input list does
not change the sorted output. -/
theorem pySorted_perm_eq {l l' : List String} (h : l.Perm l') :
    OptimizerDb.pySorted l = OptimizerDb.pySorted l' := by
  haveI : IsTotal String (fun a b => PyStr.strLe a b = true) :=
    ⟨fun a b => lexLe_total a.data b.data⟩
  haveI : IsTrans String (fun a b => PyStr.strLe a b = true) :=
    ⟨fun a b c => lexLe_trans a.data b.data c.data⟩
  haveI : IsAntisymm String (fun a b => PyStr.strLe a b = true) :=
    ⟨fun a b h1 h2 => by
      cases a; cases b
      exact congrArg String.mk (lexLe_antisymm _ _ h1 h2)⟩
  exact List.eq_of_perm_of_sorted
    ((List.perm_insertionSort _ l).trans (h.trans (List.perm_insertionSort _ l').symm))
    (List.sorted_insertionSort _ l) (List.sorted_insertionSort _ l')

/-- C10: `get_best_for_combination` is permutation-invariant in its list of
attack keys — the query key is the sorted comma-join, and each row's
combination field is compared through its own sorted comma-join. -/
theorem c10_combination_perm_invariant (rows : List OptimizerDb.Row)
    (l l' : List String) (h : l.Perm l') :
    OptimizerDb.get_best_for_combination rows l =
      OptimizerDb.get_best_for_combination rows l' := by
  unfold OptimizerDb.get_best_for_combination OptimizerDb.combination_key
  rw [pySorted_perm_eq h]

/-- C10 witness: querying `["b","a"]` and `["a","b"]` against a row stored
with combination field `"b,a"` gives the same (successful) result. -/
theorem c10_combination_perm_invariant_witness :
    OptimizerDb.get_best_for_combination [exRowC "b,a" "0.5"] ["b", "a"] =
      OptimizerDb.get_best_for_combination [exRowC "b,a" "0.5"] ["a", "b"] ∧
    OptimizerDb.get_best_for_combination [exRowC "b,a" "0.5"] ["a", "b"] =
      .ok (some ⟨"id", "ts", "b,a", "opt", 10, ⟨5, 10⟩, .obj [], "", ""⟩) :=
  ⟨c10_combination_perm_invariant _ _ _ (List.Perm.swap "a" "b" []), rfl⟩

/-- `mkDecimal` always has a positive (power-of-ten) denominator. -/
theorem mkDecimal_wf (neg : Bool) (m flen : Nat) (e : Int) :
    (PyStr.mkDecimal neg m flen e).WF := by
  unfold PyStr.mkDecimal Flt.WF
  dsimp only
  split <;> positivity

/-- Every float produced by `float(...)` has a positive denominator. -/
theorem pyFloat_wf (s : String) (x : Flt) (h : PyStr.pyFloat s = some x) : x.WF := by
  unfold PyStr.pyFloat at h
  dsimp only at h
  split at h
  · exact absurd h (by simp)
  · split at h
    · exact absurd h (by simp)
    · rw [Option.some_inj] at h
      rw [← h]
      exact mkDecimal_wf _ _ _ _

/-- The boolean comparison `a < b` agrees with the order of the exact
values, for well-formed floats. -/
theorem flt_blt_iff (a b : Flt) (ha : a.WF) (hb : b.WF) :
    a.blt b = true ↔ a.toRat < b.toRat := by
  unfold Flt.blt Flt.toRat
  unfold Flt.WF at ha hb
  rw [decide_eq_true_iff]
  rw [div_lt_div_iff₀ (by exact_mod_cast ha) (by exact_mod_cast hb)]
  constructor
  · intro h; exact_mod_cast h
  · intro h; exact_mod_cast h

/-- The best record built from a row carries the score it was built with. -/
theorem buildAttackBest_f1 (r : OptimizerDb.Row) (f1 : Flt) (b : OptimizerDb.AttackBest)
    (h : OptimizerDb.buildAttackBest r f1 = .ok b) : b.best_metric_f1 = f1 := by
  unfold OptimizerDb.buildAttackBest at h
  split at h
  · cases h
  · split at h
    · cases h
      rfl
    · cases h

/-- Membership in the matching-scores list comes from a matching row. -/
theorem matchingScores_mem (rows : List OptimizerDb.Row) (key : String) (s : Flt)
    (h : s ∈ OptimizerDb.matchingScores rows key) :
    ∃ r ∈ rows, r.attack_key = key ∧ PyStr.pyFloat r.best_metric_f1 = some s := by
  unfold OptimizerDb.matchingScores at h
  rw [List.mem_filterMap] at h
  obtain ⟨r, hr, hs⟩ := h
  refine ⟨r, hr, ?_⟩
  by_cases hk : r.attack_key = key
  · rw [if_pos hk] at hs
    exact ⟨hk, hs⟩
  · rw [if_neg hk] at hs
    cases hs

/-- Unfolding `matchingScores` over a matching head row. -/
theorem matchingScores_cons_match (r : OptimizerDb.Row) (rows : List OptimizerDb.Row)
    (key : String) (f1 : Flt) (hk : r.attack_key = key)
    (hf : PyStr.pyFloat r.best_metric_f1 = some f1) :
    OptimizerDb.matchingScores (r :: rows) key = f1 :: OptimizerDb.matchingScores rows key := by
  unfold OptimizerDb.matchingScores
  rw [List.filterMap_cons, if_pos hk, hf]

/-- Unfolding `matchingScores` over a non-matching head row. -/
theorem matchingScores_cons_skip (r : OptimizerDb.Row) (rows : List OptimizerDb.Row)
    (key : String) (hk : ¬ r.attack_key = key) :
    OptimizerDb.matchingScores (r :: rows) key = OptimizerDb.matchingScores rows key := by
  unfold OptimizerDb.matchingScores
  rw [List.filterMap_cons, if_neg hk]

theorem bestAttackLoop_spec (key : String) :
    ∀ (rows : List OptimizerDb.Row) (best0 : Option OptimizerDb.AttackBest),
    (∀ r ∈ rows, r.attack_key = key →
      ∃ f1 b, PyStr.pyFloat r.best_metric_f1 = some f1 ∧
        OptimizerDb.buildAttackBest r f1 = .ok b) →
    (∀ b0, best0 = some b0 → b0.best_metric_f1.WF) →
    ∃ res, OptimizerDb.bestAttackLoop key best0 rows = .ok res ∧
      (∀ b, res = some b → b.best_metric_f1.WF) ∧
      (∀ b, res = some b →
        best0 = some b ∨
        ∃ r ∈ rows, r.attack_key = key ∧
          PyStr.pyFloat r.best_metric_f1 = some b.best_metric_f1 ∧
          OptimizerDb.buildAttackBest r b.best_metric_f1 = .ok b) ∧
      (res = none ↔ (best0 = none ∧ OptimizerDb.matchingScores rows key = [])) ∧
      (∀ b, res = some b → ∀ s ∈ OptimizerDb.matchingScores rows key,
        b.best_metric_f1.toRat ≤ s.toRat) ∧
      (∀ b b0, res = some b → best0 = some b0 →
        b.best_metric_f1.toRat ≤ b0.best_metric_f1.toRat) := by
  intro rows
  induction rows with
  | nil =>
    intro best0 hp hb0
    refine ⟨best0, rfl, fun b hb => hb0 b hb, fun b hb => Or.inl hb, ?_, ?_, ?_⟩
    · simp [OptimizerDb.matchingScores, OptimizerDb.bestAttackLoop]
    · intro b _ s hs
      simp [OptimizerDb.matchingScores] at hs
    · intro b b0 hb hb0'
      rw [hb0'] at hb
      cases hb
      exact le_refl _
  | cons r rest ih =>
    intro best0 hp hb0
    have hp' : ∀ r' ∈ rest, r'.attack_key = key →
        ∃ f1 b, PyStr.pyFloat r'.best_metric_f1 = some f1 ∧
          OptimizerDb.buildAttackBest r' f1 = .ok b :=
      fun r' hr' => hp r' (List.mem_cons_of_mem _ hr')
    by_cases hk : r.attack_key = key
    · obtain ⟨f1, bb, hf1, hbb⟩ := hp r (List.mem_cons_self _ _) hk
      have hf1wf : f1.WF := pyFloat_wf _ _ hf1
      have hbbf1 : bb.best_metric_f1 = f1 := buildAttackBest_f1 _ _ _ hbb
      have hms := matchingScores_cons_match r rest key f1 hk hf1
      cases best0 with
      | none =>
        obtain ⟨res, hloop, hwf, hprov, hnone, hmin, hvb⟩ :=
          ih (some bb) hp' (fun b0 hb0' => by cases hb0'; rw [hbbf1]; exact hf1wf)
        refine ⟨res, ?_, hwf, ?_, ?_, ?_, ?_⟩
        · simp [OptimizerDb.bestAttackLoop, hk, hf1, hbb, hloop]
        · intro b hb
          rcases hprov b hb with h | ⟨r', hr', h1, h2, h3⟩
          · cases h
            exact Or.inr ⟨r, List.mem_cons_self _ _, hk, by rw [hbbf1]; exact hf1,
              by rw [hbbf1]; exact hbb⟩
          · exact Or.inr ⟨r', List.mem_cons_of_mem _ hr', h1, h2, h3⟩
        · constructor
          · intro h
            exact absurd (hnone.mp h).1 (by simp)
          · rintro ⟨_, h2⟩
            rw [hms] at h2
            cases h2
        · intro b hb s hs
          rw [hms] at hs
          rcases List.mem_cons.mp hs with rfl | hs'
          · have := hvb b bb hb rfl
            rwa [hbbf1] at this
          · exact hmin b hb s hs'
        · intro b b0 _ hcontra
          cases hcontra
      | some b0 =>
        have hb0wf : b0.best_metric_f1.WF := hb0 b0 rfl
        by_cases hbt : f1.blt b0.best_metric_f1 = true
        · obtain ⟨res, hloop, hwf, hprov, hnone, hmin, hvb⟩ :=
            ih (some bb) hp' (fun b0' hb0' => by cases hb0'; rw [hbbf1]; exact hf1wf)
          have hlt : f1.toRat < b0.best_metric_f1.toRat :=
            (flt_blt_iff _ _ hf1wf hb0wf).mp hbt
          refine ⟨res, ?_, hwf, ?_, ?_, ?_, ?_⟩
          · simp [OptimizerDb.bestAttackLoop, hk, hf1, hbt, hbb, hloop]
          · intro b hb
            rcases hprov b hb with h | ⟨r', hr', h1, h2, h3⟩
            · cases h
              exact Or.inr ⟨r, List.mem_cons_self _ _, hk, by rw [hbbf1]; exact hf1,
                by rw [hbbf1]; exact hbb⟩
            · exact Or.inr ⟨r', List.mem_cons_of_mem _ hr', h1, h2, h3⟩
          · constructor
            · intro h
              exact absurd (hnone.mp h).1 (by simp)
            · rintro ⟨h1, _⟩
              cases h1
          · intro b hb s hs
            rw [hms] at hs
            rcases List.mem_cons.mp hs with rfl | hs'
            · have := hvb b bb hb rfl
              rwa [hbbf1] at this
            · exact hmin b hb s hs'
          · intro b b0' hb hb0'
            cases hb0'
            have h1 := hvb b bb hb rfl
            rw [hbbf1] at h1
            exact le_trans h1 (le_of_lt hlt)
        · obtain ⟨res, hloop, hwf, hprov, hnone, hmin, hvb⟩ := ih (some b0) hp' hb0
          have hble : b0.best_metric_f1.toRat ≤ f1.toRat :=
            not_lt.mp fun hcon =>
              hbt ((flt_blt_iff _ _ hf1wf hb0wf).mpr hcon)
          refine ⟨res, ?_, hwf, ?_, ?_, ?_, ?_⟩
          · simp [OptimizerDb.bestAttackLoop, hk, hf1, hbt, hloop]
          · intro b hb
            rcases hprov b hb with h | ⟨r', hr', h1, h2, h3⟩
            · exact Or.inl h
            · exact Or.inr ⟨r', List.mem_cons_of_mem _ hr', h1, h2, h3⟩
          · constructor
            · intro h
              exact absurd (hnone.mp h).1 (by simp)
            · rintro ⟨h1, _⟩
              cases h1
          · intro b hb s hs
            rw [hms] at hs
            rcases List.mem_cons.mp hs with rfl | hs'
            · exact le_trans (hvb b b0 hb rfl) hble
            · exact hmin b hb s hs'
          · intro b b0' hb hb0'
            cases hb0'
            exact hvb b b0 hb rfl
    · obtain ⟨res, hloop, hwf, hprov, hnone, hmin, hvb⟩ := ih best0 hp' hb0
      have hms := matchingScores_cons_skip r rest key hk
      refine ⟨res, ?_, hwf, ?_, ?_, ?_, hvb⟩
      · simp [OptimizerDb.bestAttackLoop, hk, hloop]
      · intro b hb
        rcases hprov b hb with h | ⟨r', hr', h1, h2, h3⟩
        · exact Or.inl h
        · exact Or.inr ⟨r', List.mem_cons_of_mem _ hr', h1, h2, h3⟩
      · rw [hnone, hms]
      · intro b hb s hs
        rw [hms] at hs
        exact hmin b hb s hs

/-- C7: `get_best_for_attack` is a linear scan filtering rows by exact
attack key: on cleanly-parsing rows it returns `none` exactly when no row
matches, and otherwise a record built from one of the matching rows whose
score is a minimum of all matching scores. -/
theorem c7_best_for_attack_min (rows : List OptimizerDb.Row) (key : String)
    (hp : ∀ r ∈ rows, r.attack_key = key →
      ∃ f1 b, PyStr.pyFloat r.best_metric_f1 = some f1 ∧
        OptimizerDb.buildAttackBest r f1 = .ok b) :
    ∃ res, OptimizerDb.get_best_for_attack rows key = .ok res ∧
      (res = none ↔ OptimizerDb.matchingScores rows key = []) ∧
      (∀ b, res = some b →
        (∃ r ∈ rows, r.attack_key = key ∧
          PyStr.pyFloat r.best_metric_f1 = some b.best_metric_f1 ∧
          OptimizerDb.buildAttackBest r b.best_metric_f1 = .ok b) ∧
        ∀ s ∈ OptimizerDb.matchingScores rows key,
          b.best_metric_f1.toRat ≤ s.toRat) := by
  obtain ⟨res, hloop, _, hprov, hnone, hmin, _⟩ :=
    bestAttackLoop_spec key rows none hp (fun b0 h => by cases h)
  refine ⟨res, hloop, ?_, ?_⟩
  · rw [hnone]
    simp
  · intro b hb
    refine ⟨?_, hmin b hb⟩
    rcases hprov b hb with h | h
    · cases h
    · exact h

/-- C7 witness: for matching rows scoring `[0.8, 0.3, 0.5]`, the scan
returns the record of the row scoring 0.3. -/
theorem c7_best_for_attack_min_witness :
    OptimizerDb.get_best_for_attack [exRow "a" "0.8", exRow "a" "0.3", exRow "a" "0.5"] "a" =
      .ok (some ⟨"id", "ts", "a", "opt", 10, ⟨3, 10⟩, .obj [], "", ""⟩) ∧
    (∃ res, OptimizerDb.get_best_for_attack
        [exRow "a" "0.8", exRow "a" "0.3", exRow "a" "0.5"] "a" = .ok res ∧
      (res = none ↔
        OptimizerDb.matchingScores [exRow "a" "0.8", exRow "a" "0.3", exRow "a" "0.5"] "a" = []) ∧
      (∀ b, res = some b →
        (∃ r ∈ [exRow "a" "0.8", exRow "a" "0.3", exRow "a" "0.5"], r.attack_key = "a" ∧
          PyStr.pyFloat r.best_metric_f1 = some b.best_metric_f1 ∧
          OptimizerDb.buildAttackBest r b.best_metric_f1 = .ok b) ∧
        ∀ s ∈ OptimizerDb.matchingScores [exRow "a" "0.8", exRow "a" "0.3", exRow "a" "0.5"] "a",
          b.best_metric_f1.toRat ≤ s.toRat)) := by
  refine ⟨rfl, c7_best_for_attack_min _ "a" ?_⟩
  intro r hr _
  rcases List.mem_cons.mp hr with rfl | hr
  · exact ⟨⟨8, 10⟩, ⟨"id", "ts", "a", "opt", 10, ⟨8, 10⟩, .obj [], "", ""⟩, rfl, rfl⟩
  rcases List.mem_cons.mp hr with rfl | hr
  · exact ⟨⟨3, 10⟩, ⟨"id", "ts", "a", "opt", 10, ⟨3, 10⟩, .obj [], "", ""⟩, rfl, rfl⟩
  rcases List.mem_cons.mp hr with rfl | hr
  · exact ⟨⟨5, 10⟩, ⟨"id", "ts", "a", "opt", 10, ⟨5, 10⟩, .obj [], "", ""⟩, rfl, rfl⟩
  · cases hr

/-- C8 counterexample. -/
theorem c8_counterexample :
    OptimizerDb.get_best_for_attack [exRow "a" "0.8", exRow "a" "corrupted", exRow "a" "0.5"] "a" =
      .error "ValueError: could not convert string to float" ∧
    OptimizerDb.get_all_results [exRow "a" "0.8", exRow "a" "corrupted", exRow "a" "0.5"] =
      .error "ValueError: could not convert string to float" :=
  ⟨rfl, rfl⟩

theorem buildResultEntry_ok_float (r : OptimizerDb.Row) (e : OptimizerDb.ResultEntry)
    (h : OptimizerDb.buildResultEntry r = .ok e) :
    (PyStr.pyFloat r.best_metric_f1).isSome = true := by
  unfold OptimizerDb.buildResultEntry at h
  split at h
  · cases h
  · split at h
    · cases h
    · rename_i x _
      simp [*]

theorem bestAttackLoop_aborts (key : String) (r : OptimizerDb.Row)
    (hbad : PyStr.pyFloat r.best_metric_f1 = none) (hkey : r.attack_key = key) :
    ∀ (rows : List OptimizerDb.Row) (best0 : Option OptimizerDb.AttackBest), r ∈ rows →
      (OptimizerDb.bestAttackLoop key best0 rows).isOk = false := by
  intro rows
  induction rows with
  | nil => intro best0 hr; cases hr
  | cons h rest ih =>
    intro best0 hr
    rcases List.mem_cons.mp hr with rfl | hr'
    · simp only [OptimizerDb.bestAttackLoop, hkey, hbad, if_true]
      rfl
    · by_cases hk : h.attack_key = key
      · cases hf : PyStr.pyFloat h.best_metric_f1 with
        | none =>
          simp only [OptimizerDb.bestAttackLoop, hk, hf, if_true]
          rfl
        | some f1 =>
          simp only [OptimizerDb.bestAttackLoop, hk, hf, if_true]
          split
          · cases hbu : OptimizerDb.buildAttackBest h f1 with
            | ok b' => simp only [hbu]; exact ih _ hr'
            | error e => simp only [hbu]; rfl
          · exact ih _ hr'
      · simp only [OptimizerDb.bestAttackLoop, hk, if_false]
        exact ih _ hr'

theorem allResultsLoop_aborts (r : OptimizerDb.Row)
    (hbad : (OptimizerDb.buildResultEntry r).isOk = false) :
    ∀ (rows : List OptimizerDb.Row) (acc : List OptimizerDb.ResultEntry), r ∈ rows →
      (OptimizerDb.allResultsLoop rows acc).isOk = false := by
  intro rows
  induction rows with
  | nil => intro acc hr; cases hr
  | cons h rest ih =>
    intro acc hr
    cases hbu : OptimizerDb.buildResultEntry h with
    | error e =>
      simp only [OptimizerDb.allResultsLoop, hbu]
      rfl
    | ok e =>
      have hne : r ≠ h := by
        intro heq
        rw [heq, hbu] at hbad
        cases hbad
      rcases List.mem_cons.mp hr with rfl | hr'
      · exact absurd rfl hne
      · simp only [OptimizerDb.allResultsLoop, hbu]
        exact ih _ hr'

/-- C8 (amended): malformed rows are not skipped with a warning — the scans
have no exception handling at all, and a scan aborts exactly when it
evaluates a malformed field.  (i) A best-result lookup aborts on a matching
row whose score field does not parse as a float; (ii) the all-results
listing decodes every row, so any row it cannot decode (bad trial count, bad
score, or non-empty unparseable parameters) aborts it; but (iii) a corrupt
row whose key does not match the queried key is passed over untouched, and
(iv) a matching row whose score parses but is not a new best is passed over
without its corrupt parameters field ever being decoded — those scans
complete silently. -/
theorem c8_amended_scan_aborts
    (rows rows2 : List OptimizerDb.Row) (r r2 : OptimizerDb.Row)
    (hr : r ∈ rows) (hbad : PyStr.pyFloat r.best_metric_f1 = none)
    (hr2 : r2 ∈ rows2) (hbad2 : (OptimizerDb.buildResultEntry r2).isOk = false) :
    ((OptimizerDb.get_best_for_attack rows r.attack_key).isOk = false ∧
     (OptimizerDb.get_all_results rows2).isOk = false) ∧
    OptimizerDb.get_best_for_attack [exRowP "b" "corrupted" "nope"] "a" = .ok none ∧
    OptimizerDb.get_best_for_attack [exRow "a" "0.3", exRowP "a" "0.9" "nope"] "a" =
      .ok (some ⟨"id", "ts", "a", "opt", 10, ⟨3, 10⟩, .obj [], "", ""⟩) :=
  ⟨⟨bestAttackLoop_aborts r.attack_key r hbad rfl rows none hr,
    allResultsLoop_aborts r2 hbad2 rows2 [] hr2⟩, rfl, rfl⟩

/-- C8 witness: a middle row whose score field is `corrupted` aborts the
best-lookup of a concrete ledger, and a row whose parameters field is the
non-JSON text `nope` aborts the all-results listing. -/
theorem c8_amended_scan_aborts_witness :
    ((OptimizerDb.get_best_for_attack [exRow "a" "0.8", exRow "a" "corrupted", exRow "a" "0.5"]
        (exRow "a" "corrupted").attack_key).isOk = false ∧
     (OptimizerDb.get_all_results [exRow "a" "0.8", exRowP "a" "0.5" "nope"]).isOk = false) ∧
    OptimizerDb.get_best_for_attack [exRowP "b" "corrupted" "nope"] "a" = .ok none ∧
    OptimizerDb.get_best_for_attack [exRow "a" "0.3", exRowP "a" "0.9" "nope"] "a" =
      .ok (some ⟨"id", "ts", "a", "opt", 10, ⟨3, 10⟩, .obj [], "", ""⟩) :=
  c8_amended_scan_aborts _ _ (exRow "a" "corrupted") (exRowP "a" "0.5" "nope")
    (by simp) rfl (by simp) rfl

/-- C4 counterexample: in the baseline `{"a": {"b_c": …}, "a_b": {"c": …}}`
the walk visits the two distinct tunable paths `["a","b_c"]` and
`["a_b","c"]`, but `'_'.join` gives both the same name `a_b_c`, and the
name-to-path dict retains only the later binding — the map is not a
bijection and one tunable path is lost. -/
theorem c4_counterexample :
    OptunaOptAggressive.tunablePaths cfgCollide [] = [["a", "b_c"], ["a_b", "c"]] ∧
    (["a", "b_c"] : List String) ≠ ["a_b", "c"] ∧
    PyStr.joinU ["a", "b_c"] = "a_b_c" ∧ PyStr.joinU ["a_b", "c"] = "a_b_c" ∧
    OptunaOptAggressive.build_param_map cfgCollide [] [] = [("a_b_c", ["a_b", "c"])] :=
  ⟨rfl, by decide, rfl, rfl, rfl⟩

/-- Membership-style induction over nested JSON documents. -/
theorem json_ind (motive : Json → Prop)
    (hnull : motive .null) (hbool : ∀ b, motive (.bool b))
    (hint : ∀ n, motive (.int n)) (hnum : ∀ x, motive (.num x))
    (hstr : ∀ s, motive (.str s))
    (harr : ∀ xs, (∀ v ∈ xs, motive v) → motive (.arr xs))
    (hobj : ∀ es, (∀ e ∈ es, motive e.2) → motive (.obj es)) :
    ∀ j, motive j
  | .null => hnull
  | .bool b => hbool b
  | .int n => hint n
  | .num x => hnum x
  | .str s => hstr s
  | .arr xs => harr xs (fun v hv =>
      have : sizeOf v < 1 + sizeOf xs := by
        have := List.sizeOf_lt_of_mem hv
        omega
      json_ind motive hnull hbool hint hnum hstr harr hobj v)
  | .obj es => hobj es (fun e he =>
      have : sizeOf e.2 < 1 + sizeOf es := by
        have h1 := List.sizeOf_lt_of_mem he
        obtain ⟨k, v⟩ := e
        simp at h1 ⊢
        omega
      json_ind motive hnull hbool hint hnum hstr harr hobj e.2)
termination_by j => sizeOf j

theorem dictGet_dictSet_self {α : Type} (xs : List (String × α)) (k : String) (v : α) :
    dictGet (dictSet xs k v) k = some v := by
  induction xs with
  | nil => simp [dictGet, dictSet]
  | cons e rest ih =>
    obtain ⟨k', v'⟩ := e
    by_cases h : k' = k
    · subst h
      simp [dictGet, dictSet]
    · simp [dictGet, dictSet, h, ih]

theorem dictGet_dictSet_ne {α : Type} (xs : List (String × α)) (k k' : String) (v : α)
    (h : k ≠ k') : dictGet (dictSet xs k v) k' = dictGet xs k' := by
  induction xs with
  | nil => simp [dictGet, dictSet, h]
  | cons e rest ih =>
    obtain ⟨k0, v0⟩ := e
    by_cases h0 : k0 = k
    · subst h0
      simp [dictGet, dictSet, h]
    · simp only [dictSet, if_neg h0, dictGet]
      by_cases h1 : k0 = k'
      · simp [h1]
      · simp [h1, ih]

theorem dictGet_append {α : Type} (xs ys : List (String × α)) (k : String) :
    dictGet (xs ++ ys) k =
      match dictGet xs k with
      | some v => some v
      | none => dictGet ys k := by
  induction xs with
  | nil => simp [dictGet]
  | cons e rest ih =>
    obtain ⟨k0, v0⟩ := e
    by_cases h : k0 = k
    · simp [dictGet, h]
    · simp [dictGet, h, ih]

theorem dictSet_fresh {α : Type} (xs : List (String × α)) (k : String) (v : α)
    (h : dictGet xs k = none) : dictSet xs k v = xs ++ [(k, v)] := by
  induction xs with
  | nil => simp [dictSet]
  | cons e rest ih =>
    obtain ⟨k0, v0⟩ := e
    by_cases h0 : k0 = k
    · subst h0
      simp [dictGet] at h
    · simp only [dictGet, if_neg h0] at h
      simp [dictSet, h0, ih h]

/-- The emission sequence's paths are exactly the tunable paths, in order. -/
theorem emitted_map_snd (j : Json) :
    ∀ p, (OptunaOptAggressive.emitted j p).map Prod.snd =
      OptunaOptAggressive.tunablePaths j p := by
  induction j using json_ind with
  | hnull => intro p; rfl
  | hbool b => intro p; rfl
  | hint n => intro p; rfl
  | hnum x => intro p; rfl
  | hstr s => intro p; rfl
  | harr xs _ => intro p; rfl
  | hobj es he =>
    have key : ∀ (es' : List (String × Json)),
        (∀ e ∈ es', ∀ p, (OptunaOptAggressive.emitted e.2 p).map Prod.snd =
          OptunaOptAggressive.tunablePaths e.2 p) →
        ∀ p, (OptunaOptAggressive.emittedList es' p).map Prod.snd =
          OptunaOptAggressive.tpList es' p := by
      intro es'
      induction es' with
      | nil => intro _ p; rfl
      | cons e rest ihl =>
        intro hmem p
        obtain ⟨k, v⟩ := e
        simp only [OptunaOptAggressive.emittedList, OptunaOptAggressive.tpList,
          List.map_append]
        rw [hmem (k, v) (List.mem_cons_self _ _) (p ++ [k]),
          ihl (fun e hse => hmem e (List.mem_cons_of_mem _ hse)) p]
    intro p
    by_cases hp : OptunaOptAggressive.isPairNode es = true
    · simp [OptunaOptAggressive.emitted, OptunaOptAggressive.tunablePaths, hp]
    · simp only [OptunaOptAggressive.emitted, OptunaOptAggressive.tunablePaths, hp,
        if_false, Bool.false_eq_true]
      exact key es he p

/-- `build_param_map` is the dict-fold of the emission sequence. -/
theorem build_eq_fold (j : Json) :
    ∀ (p : List String) (out : List (String × List String)),
      OptunaOptAggressive.build_param_map j p out =
        (OptunaOptAggressive.emitted j p).foldl (fun acc e => dictSet acc e.1 e.2) out := by
  induction j using json_ind with
  | hnull => intro p out; rfl
  | hbool b => intro p out; rfl
  | hint n => intro p out; rfl
  | hnum x => intro p out; rfl
  | hstr s => intro p out; rfl
  | harr xs _ => intro p out; rfl
  | hobj es he =>
    have key : ∀ (es' : List (String × Json)),
        (∀ e ∈ es', ∀ p out, OptunaOptAggressive.build_param_map e.2 p out =
          (OptunaOptAggressive.emitted e.2 p).foldl (fun acc e => dictSet acc e.1 e.2) out) →
        ∀ p out, OptunaOptAggressive.bpmList es' p out =
          (OptunaOptAggressive.emittedList es' p).foldl (fun acc e => dictSet acc e.1 e.2) out := by
      intro es'
      induction es' with
      | nil => intro _ p out; rfl
      | cons e rest ihl =>
        intro hmem p out
        obtain ⟨k, v⟩ := e
        simp only [OptunaOptAggressive.bpmList, OptunaOptAggressive.emittedList,
          List.foldl_append]
        rw [hmem (k, v) (List.mem_cons_self _ _) (p ++ [k]) out,
          ihl (fun e hse => hmem e (List.mem_cons_of_mem _ hse)) p _]
    intro p out
    by_cases hp : OptunaOptAggressive.isPairNode es = true
    · simp [OptunaOptAggressive.build_param_map, OptunaOptAggressive.emitted, hp]
    · simp only [OptunaOptAggressive.build_param_map, OptunaOptAggressive.emitted, hp,
        if_false, Bool.false_eq_true]
      exact key es he p out

/-- Folding `dictSet` over entries with fresh, pairwise-distinct names is
plain concatenation. -/
theorem foldl_dictSet_nodup :
    ∀ (entries out : List (String × List String)),
      (entries.map Prod.fst).Nodup →
      (∀ n ∈ entries.map Prod.fst, dictGet out n = (none : Option (List String))) →
      entries.foldl (fun acc e => dictSet acc e.1 e.2) out = out ++ entries := by
  intro entries
  induction entries with
  | nil => intro out _ _; simp
  | cons e rest ih =>
    intro out hnd hfresh
    obtain ⟨n, q⟩ := e
    simp only [List.map_cons, List.nodup_cons] at hnd
    have hfr : dictGet out n = none := hfresh n (by simp)
    simp only [List.foldl_cons]
    rw [dictSet_fresh out n q hfr]
    rw [ih (out ++ [(n, q)]) hnd.2 ?_]
    · simp
    · intro m hm
      rw [dictGet_append]
      rw [hfresh m (List.mem_cons_of_mem _ hm)]
      have hne : n ≠ m := fun h => hnd.1 (h ▸ hm)
      simp [dictGet, hne]

/-- Walking under a prefix just prepends the prefix to every tunable path. -/
theorem tunablePaths_shift (j : Json) :
    ∀ p, OptunaOptAggressive.tunablePaths j p =
      (OptunaOptAggressive.tunablePaths j []).map (p ++ ·) := by
  induction j using json_ind with
  | hnull => intro p; rfl
  | hbool b => intro p; simp [OptunaOptAggressive.tunablePaths]
  | hint n => intro p; simp [OptunaOptAggressive.tunablePaths]
  | hnum x => intro p; simp [OptunaOptAggressive.tunablePaths]
  | hstr s => intro p; rfl
  | harr xs _ => intro p; rfl
  | hobj es he =>
    have key : ∀ (es' : List (String × Json)),
        (∀ e ∈ es', ∀ p, OptunaOptAggressive.tunablePaths e.2 p =
          (OptunaOptAggressive.tunablePaths e.2 []).map (p ++ ·)) →
        ∀ p, OptunaOptAggressive.tpList es' p =
          (OptunaOptAggressive.tpList es' []).map (p ++ ·) := by
      intro es'
      induction es' with
      | nil => intro _ p; rfl
      | cons e rest ihl =>
        intro hmem p
        obtain ⟨k, v⟩ := e
        simp only [OptunaOptAggressive.tpList, List.map_append]
        rw [hmem (k, v) (List.mem_cons_self _ _) (p ++ [k]),
          hmem (k, v) (List.mem_cons_self _ _) ([] ++ [k]),
          ihl (fun e hse => hmem e (List.mem_cons_of_mem _ hse)) p]
        simp [List.map_map, Function.comp_def]
    intro p
    by_cases hp : OptunaOptAggressive.isPairNode es = true
    · simp [OptunaOptAggressive.tunablePaths, hp]
    · simp only [OptunaOptAggressive.tunablePaths, hp, if_false, Bool.false_eq_true]
      exact key es he p

/-- Every path emitted below an object starts with one of its keys. -/
theorem tpList_heads :
    ∀ (es : List (String × Json)) (q : List String),
      q ∈ OptunaOptAggressive.tpList es [] →
      ∃ k t, q = k :: t ∧ k ∈ es.map Prod.fst ∧
        ∃ v, (k, v) ∈ es ∧ t ∈ OptunaOptAggressive.tunablePaths v [] := by
  intro es
  induction es with
  | nil => intro q hq; cases hq
  | cons e rest ih =>
    intro q hq
    obtain ⟨k, v⟩ := e
    simp only [OptunaOptAggressive.tpList] at hq
    rcases List.mem_append.mp hq with h | h
    · rw [tunablePaths_shift v ([] ++ [k])] at h
      obtain ⟨t, ht, rfl⟩ := List.mem_map.mp h
      exact ⟨k, t, rfl, by simp, v, by simp, ht⟩
    · obtain ⟨k', t, rfl, hk', v', hv', ht⟩ := ih q h
      exact ⟨k', t, rfl, by simp [hk'], v', List.mem_cons_of_mem _ hv', ht⟩

theorem Diverge.symm : ∀ {p q : List String}, Diverge p q → Diverge q p := by
  intro p q h
  induction h with
  | head hne => exact Diverge.head (Ne.symm hne)
  | cons _ ih => exact Diverge.cons ih

theorem Diverge.ne : ∀ {p q : List String}, Diverge p q → p ≠ q := by
  intro p q h
  induction h with
  | head hne => simp [hne]
  | cons _ ih => simp [ih]

theorem Diverge.ne_nil_left : ∀ {p q : List String}, Diverge p q → p ≠ [] := by
  intro p q h
  cases h <;> simp

theorem Diverge.ne_nil_right : ∀ {p q : List String}, Diverge p q → q ≠ [] := by
  intro p q h
  cases h <;> simp

theorem distinctKeys_iff (l : List String) : distinctKeys l = true ↔ l.Nodup := by
  induction l with
  | nil => simp [distinctKeys]
  | cons k ks ih => simp [distinctKeys, ih, List.nodup_cons]

/-- Distinct tunable paths of a well-formed document always diverge at some
depth (no path is a prefix of another). -/
theorem pairwise_diverge (j : Json) :
    wfDoc j = true → (OptunaOptAggressive.tunablePaths j []).Pairwise Diverge := by
  induction j using json_ind with
  | hnull => intro _; simp [OptunaOptAggressive.tunablePaths]
  | hbool b => intro _; simp [OptunaOptAggressive.tunablePaths]
  | hint n => intro _; simp [OptunaOptAggressive.tunablePaths]
  | hnum x => intro _; simp [OptunaOptAggressive.tunablePaths]
  | hstr s => intro _; simp [OptunaOptAggressive.tunablePaths]
  | harr xs _ => intro _; simp [OptunaOptAggressive.tunablePaths]
  | hobj es he =>
    intro hwf
    simp only [wfDoc, Bool.and_eq_true] at hwf
    obtain ⟨hdk, hwl⟩ := hwf
    rw [distinctKeys_iff] at hdk
    have key : ∀ (es' : List (String × Json)),
        (∀ e ∈ es', wfDoc e.2 = true →
          (OptunaOptAggressive.tunablePaths e.2 []).Pairwise Diverge) →
        (es'.map Prod.fst).Nodup → wfList es' = true →
        (OptunaOptAggressive.tpList es' []).Pairwise Diverge := by
      intro es'
      induction es' with
      | nil => intro _ _ _; simp [OptunaOptAggressive.tpList]
      | cons e rest ihl =>
        intro hmem hnd hwl'
        obtain ⟨k, v⟩ := e
        simp only [List.map_cons, List.nodup_cons] at hnd
        simp only [wfList, Bool.and_eq_true] at hwl'
        simp only [OptunaOptAggressive.tpList]
        rw [List.pairwise_append]
        refine ⟨?_, ?_, ?_⟩
        · rw [tunablePaths_shift v ([] ++ [k]), List.pairwise_map]
          exact (hmem (k, v) (List.mem_cons_self _ _) hwl'.1).imp fun h => Diverge.cons h
        · exact ihl (fun e hse => hmem e (List.mem_cons_of_mem _ hse)) hnd.2 hwl'.2
        · intro x hx y hy
          rw [tunablePaths_shift v ([] ++ [k])] at hx
          obtain ⟨a, _, rfl⟩ := List.mem_map.mp hx
          obtain ⟨k', t, rfl, hk', _, _, _⟩ := tpList_heads rest y hy
          have hkne : k ≠ k' := fun hkk => hnd.1 (hkk ▸ hk')
          exact Diverge.head hkne
    unfold OptunaOptAggressive.tunablePaths
    by_cases hp : OptunaOptAggressive.isPairNode es = true
    · simp only [hp, if_true]
      refine List.Pairwise.cons ?_ (List.pairwise_singleton _ _)
      intro y hy
      rw [List.mem_singleton] at hy
      subst hy
      exact Diverge.head (by decide)
    · simp only [hp, if_false, Bool.false_eq_true]
      exact key es he hdk hwl

/-- In a well-formed document every tunable path resolves to a value. -/
theorem paths_readable (j : Json) :
    wfDoc j = true → ∀ q ∈ OptunaOptAggressive.tunablePaths j [],
      ∃ v0, Json.readPath j q = some v0 := by
  induction j using json_ind with
  | hnull => intro _ q hq; cases hq
  | hbool b =>
    intro _ q hq
    simp only [OptunaOptAggressive.tunablePaths, List.mem_singleton] at hq
    subst hq
    exact ⟨_, rfl⟩
  | hint n =>
    intro _ q hq
    simp only [OptunaOptAggressive.tunablePaths, List.mem_singleton] at hq
    subst hq
    exact ⟨_, rfl⟩
  | hnum x =>
    intro _ q hq
    simp only [OptunaOptAggressive.tunablePaths, List.mem_singleton] at hq
    subst hq
    exact ⟨_, rfl⟩
  | hstr s => intro _ q hq; cases hq
  | harr xs _ => intro _ q hq; cases hq
  | hobj es he =>
    intro hwf
    simp only [wfDoc, Bool.and_eq_true] at hwf
    obtain ⟨hdk, hwl⟩ := hwf
    rw [distinctKeys_iff] at hdk
    have key : ∀ (es' : List (String × Json)),
        (∀ e ∈ es', wfDoc e.2 = true → ∀ q ∈ OptunaOptAggressive.tunablePaths e.2 [],
          ∃ v0, Json.readPath e.2 q = some v0) →
        (es'.map Prod.fst).Nodup → wfList es' = true →
        ∀ q ∈ OptunaOptAggressive.tpList es' [],
          ∃ v0, Json.readPath (.obj es') q = some v0 := by
      intro es'
      induction es' with
      | nil => intro _ _ _ q hq; cases hq
      | cons e rest ihl =>
        intro hmem hnd hwl' q hq
        obtain ⟨k, v⟩ := e
        simp only [List.map_cons, List.nodup_cons] at hnd
        simp only [wfList, Bool.and_eq_true] at hwl'
        simp only [OptunaOptAggressive.tpList] at hq
        rcases List.mem_append.mp hq with h | h
        · rw [tunablePaths_shift v ([] ++ [k])] at h
          obtain ⟨t, ht, rfl⟩ := List.mem_map.mp h
          obtain ⟨v0, hv0⟩ := hmem (k, v) (List.mem_cons_self _ _) hwl'.1 t ht
          refine ⟨v0, ?_⟩
          show Json.readPath (.obj ((k, v) :: rest)) (k :: t) = some v0
          simp [Json.readPath, dictGet, hv0]
        · obtain ⟨k', t, rfl, hk', _, _, _⟩ := tpList_heads rest q h
          obtain ⟨v0, hv0⟩ := ihl (fun e hse => hmem e (List.mem_cons_of_mem _ hse))
            hnd.2 hwl'.2 _ h
          have hkne : k ≠ k' := fun hkk => hnd.1 (hkk ▸ hk')
          refine ⟨v0, ?_⟩
          show Json.readPath (.obj ((k, v) :: rest)) (k' :: t) = some v0
          simp only [Json.readPath, dictGet, if_neg hkne]
          simpa [Json.readPath, dictGet] using hv0
    unfold OptunaOptAggressive.tunablePaths
    by_cases hp : OptunaOptAggressive.isPairNode es = true
    · simp only [hp, if_true]
      have hmin : ∃ a, dictGet es "min" = some a := by
        unfold OptunaOptAggressive.isPairNode at hp
        cases hm : dictGet es "min" with
        | none => rw [hm] at hp; cases hx : dictGet es "max" <;> rw [hx] at hp <;> cases hp
        | some a => exact ⟨a, rfl⟩
      have hmax : ∃ b, dictGet es "max" = some b := by
        unfold OptunaOptAggressive.isPairNode at hp
        cases hm : dictGet es "max" with
        | none => rw [hm] at hp; cases hx : dictGet es "min" <;> rw [hx] at hp <;> cases hp
        | some b => exact ⟨b, rfl⟩
      intro q hq
      rcases List.mem_cons.mp hq with rfl | hq
      · obtain ⟨a, ha⟩ := hmin
        exact ⟨a, by simp [Json.readPath, ha]⟩
      · rw [List.mem_singleton] at hq
        subst hq
        obtain ⟨b, hb⟩ := hmax
        exact ⟨b, by simp [Json.readPath, hb]⟩
    · simp only [hp, if_false, Bool.false_eq_true]
      exact key es he hdk hwl

/-- Tunable paths below an object are never empty. -/
theorem paths_nonempty (es : List (String × Json)) :
    ∀ q ∈ OptunaOptAggressive.tunablePaths (.obj es) [], q ≠ [] := by
  intro q hq
  unfold OptunaOptAggressive.tunablePaths at hq
  by_cases hp : OptunaOptAggressive.isPairNode es = true
  · rw [if_pos hp] at hq
    rcases List.mem_cons.mp hq with rfl | hq
    · simp
    · rw [List.mem_singleton] at hq
      subst hq
      simp
  · rw [if_neg hp] at hq
    obtain ⟨k, t, rfl, _, _, _, _⟩ := tpList_heads es q hq
    simp

/-- Setting a value at an existing (non-empty) path succeeds and the new
value reads back. -/
theorem setPath_existing : ∀ (p : List String) (cfg v0 v : Json),
    Json.readPath cfg p = some v0 → p ≠ [] →
    ∃ cfg', OptunaOptAggressive.setPath cfg p v = .ok cfg' ∧
      Json.readPath cfg' p = some v := by
  intro p
  induction p with
  | nil => intro cfg v0 v _ hne; exact absurd rfl hne
  | cons k ks ih =>
    intro cfg v0 v hread _
    cases cfg with
    | null => simp [Json.readPath] at hread
    | bool b => simp [Json.readPath] at hread
    | int n => simp [Json.readPath] at hread
    | num x => simp [Json.readPath] at hread
    | str s => simp [Json.readPath] at hread
    | arr xs => simp [Json.readPath] at hread
    | obj es =>
      simp only [Json.readPath] at hread
      cases hget : dictGet es k with
      | none => rw [hget] at hread; cases hread
      | some child =>
        rw [hget] at hread
        cases ks with
        | nil =>
          refine ⟨.obj (dictSet es k v), rfl, ?_⟩
          simp [Json.readPath, dictGet_dictSet_self]
        | cons k2 ks2 =>
          obtain ⟨cfg1, hset, hread1⟩ := ih child v0 v hread (by simp)
          refine ⟨.obj (dictSet es k cfg1), ?_, ?_⟩
          · have hd : dictGetD es k (Json.obj []) = child := by simp [dictGetD, hget]
            simp only [OptunaOptAggressive.setPath, hd, hset]
          · simp [Json.readPath, dictGet_dictSet_self, hread1]

/-- Setting along `p` does not disturb reading along any diverging `q`. -/
theorem setPath_frame : ∀ {p q : List String}, Diverge p q →
    ∀ (cfg cfg' v : Json), OptunaOptAggressive.setPath cfg p v = .ok cfg' →
      Json.readPath cfg' q = Json.readPath cfg q := by
  intro p q hdiv
  induction hdiv with
  | @head a b l1 l2 hne =>
    intro cfg cfg' v hset
    cases cfg with
    | null => simp [OptunaOptAggressive.setPath] at hset
    | bool x => simp [OptunaOptAggressive.setPath] at hset
    | int x => simp [OptunaOptAggressive.setPath] at hset
    | num x => simp [OptunaOptAggressive.setPath] at hset
    | str x => simp [OptunaOptAggressive.setPath] at hset
    | arr x => simp [OptunaOptAggressive.setPath] at hset
    | obj es =>
      cases l1 with
      | nil =>
        simp only [OptunaOptAggressive.setPath] at hset
        cases hset
        simp [Json.readPath, dictGet_dictSet_ne _ _ _ _ hne]
      | cons c l1' =>
        simp only [OptunaOptAggressive.setPath] at hset
        cases hrec : OptunaOptAggressive.setPath (dictGetD es a (.obj [])) (c :: l1') v with
        | error e => rw [hrec] at hset; cases hset
        | ok c' =>
          rw [hrec] at hset
          cases hset
          simp [Json.readPath, dictGet_dictSet_ne _ _ _ _ hne]
  | @cons k l1 l2 hsub ih =>
    intro cfg cfg' v hset
    cases cfg with
    | null => simp [OptunaOptAggressive.setPath] at hset
    | bool x => simp [OptunaOptAggressive.setPath] at hset
    | int x => simp [OptunaOptAggressive.setPath] at hset
    | num x => simp [OptunaOptAggressive.setPath] at hset
    | str x => simp [OptunaOptAggressive.setPath] at hset
    | arr x => simp [OptunaOptAggressive.setPath] at hset
    | obj es =>
      obtain ⟨c, l1', rfl⟩ : ∃ c l1', l1 = c :: l1' := by
        cases l1 with
        | nil => exact absurd rfl hsub.ne_nil_left
        | cons c l1' => exact ⟨c, l1', rfl⟩
      obtain ⟨d, l2', rfl⟩ : ∃ d l2', l2 = d :: l2' := by
        cases l2 with
        | nil => exact absurd rfl hsub.ne_nil_right
        | cons d l2' => exact ⟨d, l2', rfl⟩
      simp only [OptunaOptAggressive.setPath] at hset
      cases hrec : OptunaOptAggressive.setPath (dictGetD es k (.obj [])) (c :: l1') v with
      | error e => rw [hrec] at hset; cases hset
      | ok c' =>
        rw [hrec] at hset
        cases hset
        cases hget : dictGet es k with
        | some child =>
          have hd : dictGetD es k (Json.obj []) = child := by simp [dictGetD, hget]
          rw [hd] at hrec
          simp only [Json.readPath, dictGet_dictSet_self, hget]
          exact ih child c' v hrec
        | none =>
          have hd : dictGetD es k (Json.obj []) = .obj [] := by simp [dictGetD, hget]
          rw [hd] at hrec
          simp only [Json.readPath, dictGet_dictSet_self, hget]
          rw [ih _ c' v hrec]
          simp [Json.readPath, dictGet]

/-- The materialization loop succeeds on non-empty, readable, pairwise
diverging paths; every assigned value reads back at its path and everything
diverging from all paths is untouched. -/
theorem materialize_spec : ∀ (entries : List (String × List String)) (cfg : Json)
    (assign : String → Option Json),
    (∀ e ∈ entries, (assign e.1).isSome = true) →
    (∀ e ∈ entries, e.2 ≠ [] ∧ ∃ v0, Json.readPath cfg e.2 = some v0) →
    (entries.map Prod.snd).Pairwise Diverge →
    ∃ cfg', OptunaOptAggressive.materialize cfg entries assign = .ok cfg' ∧
      (∀ e ∈ entries, Json.readPath cfg' e.2 = assign e.1) ∧
      (∀ q, (∀ e ∈ entries, Diverge q e.2) →
        Json.readPath cfg' q = Json.readPath cfg q) := by
  intro entries
  induction entries with
  | nil =>
    intro cfg assign _ _ _
    exact ⟨cfg, rfl, fun e he => absurd he (List.not_mem_nil e), fun q _ => rfl⟩
  | cons e0 rest ih =>
    intro cfg assign hsome hread hpw
    obtain ⟨n0, p0⟩ := e0
    obtain ⟨v, hv⟩ := Option.isSome_iff_exists.mp (hsome (n0, p0) (List.mem_cons_self _ _))
    obtain ⟨hne, v0, hv0⟩ := hread (n0, p0) (List.mem_cons_self _ _)
    obtain ⟨cfg1, hset, hread1⟩ := setPath_existing p0 cfg v0 v hv0 hne
    simp only [List.map_cons, List.pairwise_cons] at hpw
    have hdiv0 : ∀ e ∈ rest, Diverge p0 e.2 :=
      fun e he => hpw.1 e.2 (List.mem_map_of_mem _ he)
    have hread' : ∀ e ∈ rest, e.2 ≠ [] ∧ ∃ v0', Json.readPath cfg1 e.2 = some v0' := by
      intro e he
      obtain ⟨hne', v0', hv0'⟩ := hread e (List.mem_cons_of_mem _ he)
      refine ⟨hne', v0', ?_⟩
      rw [setPath_frame (hdiv0 e he) cfg cfg1 v hset, hv0']
    obtain ⟨cfg', hmat, hset', hframe'⟩ :=
      ih cfg1 assign (fun e he => hsome e (List.mem_cons_of_mem _ he)) hread' hpw.2
    refine ⟨cfg', ?_, ?_, ?_⟩
    · simp only [OptunaOptAggressive.materialize, hv, hset, hmat]
    · intro e he
      rcases List.mem_cons.mp he with heq | he'
      · subst heq
        rw [hframe' p0 (fun e he' => hdiv0 e he'), hread1, hv]
      · exact hset' e he'
    · intro q hq
      rw [hframe' q (fun e he => hq e (List.mem_cons_of_mem _ he))]
      exact setPath_frame (Diverge.symm (hq (n0, p0) (List.mem_cons_self _ _))) cfg cfg1 v hset

/-- C4 (amended): provided the walk's generated parameter names are pairwise
distinct (which `'_'.join` does not guarantee in general — see the
counterexample), the name-to-path dict keeps exactly one entry per tunable
path; distinct tunable paths carry distinct names and distinct names carry
distinct paths (a bijection); and the round-trip holds: materializing any
complete assignment through the map and reading the materialized config back
at each tunable path recovers the assignment. -/
theorem c4_amended_bijection_roundtrip (cfg : Json)
    (hwf : wfDoc cfg = true)
    (hobj : cfg.isObj = true)
    (hnames : ((OptunaOptAggressive.emitted cfg []).map Prod.fst).Nodup) :
    OptunaOptAggressive.build_param_map cfg [] [] = OptunaOptAggressive.emitted cfg [] ∧
    (OptunaOptAggressive.emitted cfg []).map Prod.snd =
      OptunaOptAggressive.tunablePaths cfg [] ∧
    (∀ e1 ∈ OptunaOptAggressive.emitted cfg [], ∀ e2 ∈ OptunaOptAggressive.emitted cfg [],
      (e1.1 = e2.1 ↔ e1.2 = e2.2)) ∧
    (∀ assign : String → Option Json,
      (∀ e ∈ OptunaOptAggressive.emitted cfg [], (assign e.1).isSome = true) →
      ∃ cfg', OptunaOptAggressive.materialize cfg
          (OptunaOptAggressive.build_param_map cfg [] []) assign = .ok cfg' ∧
        ∀ e ∈ OptunaOptAggressive.build_param_map cfg [] [],
          Json.readPath cfg' e.2 = assign e.1) := by
  have hbuild : OptunaOptAggressive.build_param_map cfg [] [] =
      OptunaOptAggressive.emitted cfg [] := by
    rw [build_eq_fold]
    simpa using foldl_dictSet_nodup (OptunaOptAggressive.emitted cfg []) [] hnames
      (fun n _ => rfl)
  have hsnd := emitted_map_snd cfg []
  have hpw : (OptunaOptAggressive.tunablePaths cfg []).Pairwise Diverge :=
    pairwise_diverge cfg hwf
  have hsnd_nodup : ((OptunaOptAggressive.emitted cfg []).map Prod.snd).Nodup := by
    rw [hsnd]
    exact hpw.imp fun h => Diverge.ne h
  refine ⟨hbuild, hsnd, ?_, ?_⟩
  · intro e1 h1 e2 h2
    constructor
    · intro hn
      rw [List.inj_on_of_nodup_map hnames h1 h2 hn]
    · intro hp
      rw [List.inj_on_of_nodup_map hsnd_nodup h1 h2 hp]
  · intro assign hassign
    have hreadable : ∀ e ∈ OptunaOptAggressive.emitted cfg [],
        e.2 ≠ [] ∧ ∃ v0, Json.readPath cfg e.2 = some v0 := by
      intro e he
      have hmem : e.2 ∈ OptunaOptAggressive.tunablePaths cfg [] := by
        rw [← hsnd]
        exact List.mem_map_of_mem _ he
      obtain ⟨es, rfl⟩ : ∃ es, cfg = .obj es := by
        cases cfg with
        | obj es => exact ⟨es, rfl⟩
        | null => simp [Json.isObj] at hobj
        | bool b => simp [Json.isObj] at hobj
        | int n => simp [Json.isObj] at hobj
        | num x => simp [Json.isObj] at hobj
        | str s => simp [Json.isObj] at hobj
        | arr xs => simp [Json.isObj] at hobj
      exact ⟨paths_nonempty es e.2 hmem, paths_readable _ hwf e.2 hmem⟩
    obtain ⟨cfg', hmat, hset', _⟩ :=
      materialize_spec (OptunaOptAggressive.emitted cfg []) cfg assign hassign hreadable
        (by rw [hsnd]; exact hpw)
    rw [hbuild]
    exact ⟨cfg', hmat, hset'⟩

/-- C4 witness: the spec's walker example, with distinct names, round-trips
a concrete assignment. -/
theorem c4_amended_bijection_roundtrip_witness :
    OptunaOptAggressive.build_param_map cfgWindow [] [] =
      [("count_lambda", ["count", "lambda"]), ("window_min", ["window", "min"]),
        ("window_max", ["window", "max"])] ∧
    (OptunaOptAggressive.build_param_map cfgWindow [] [] =
      OptunaOptAggressive.emitted cfgWindow [] ∧
    (OptunaOptAggressive.emitted cfgWindow []).map Prod.snd =
      OptunaOptAggressive.tunablePaths cfgWindow [] ∧
    (∀ e1 ∈ OptunaOptAggressive.emitted cfgWindow [],
      ∀ e2 ∈ OptunaOptAggressive.emitted cfgWindow [],
      (e1.1 = e2.1 ↔ e1.2 = e2.2)) ∧
    (∀ assign : String → Option Json,
      (∀ e ∈ OptunaOptAggressive.emitted cfgWindow [], (assign e.1).isSome = true) →
      ∃ cfg', OptunaOptAggressive.materialize cfgWindow
          (OptunaOptAggressive.build_param_map cfgWindow [] []) assign = .ok cfg' ∧
        ∀ e ∈ OptunaOptAggressive.build_param_map cfgWindow [] [],
          Json.readPath cfg' e.2 = assign e.1)) :=
  ⟨rfl, c4_amended_bijection_roundtrip cfgWindow (by decide) rfl (by decide)⟩

end Claims
